import Mathlib

/-
  Verification development for the dom-helpers repository.

  The three lookup helpers (ProductionElementsHelper in src/elements-helper.js,
  ProductionCollectionHelper in src/collections.js, ProductionSelectorHelper in
  the selector module) are shallowly embedded below.  JavaScript Map objects are
  modelled as insertion-ordered association lists with at most one entry per
  key; DOM element references are modelled as immutable records carrying a
  reference identity (ref); the document is a snapshot value.  Console output
  is modelled by counters, and live browser collections by the list of their
  members at the instant under consideration.
-/

set_option maxHeartbeats 1000000

namespace DomHelpers

/-! ## JavaScript Map model

A JS Map iterates in insertion order; set on an existing key keeps its
position, set on a fresh key appends; delete removes the key.  keys().next()
yields the first (oldest-inserted) key. -/

def mapHas {V : Type} (c : List (String × V)) (k : String) : Bool :=
  c.any (fun p => p.1 == k)

def mapGet {V : Type} (c : List (String × V)) (k : String) : Option V :=
  (c.find? (fun p => p.1 == k)).map (fun p => p.2)

def mapDelete {V : Type} (c : List (String × V)) (k : String) : List (String × V) :=
  c.filter (fun p => p.1 != k)

def mapSet {V : Type} (c : List (String × V)) (k : String) (v : V) : List (String × V) :=
  if mapHas c k then c.map (fun p => if p.1 == k then (k, v) else p) else c ++ [(k, v)]

def keysOf {V : Type} (c : List (String × V)) : List String :=
  c.map Prod.fst

/-- The shared _addToCache eviction step, identical in all three helpers:
if store size is at least the configured max, delete the oldest-inserted key
(cache.keys().next().value), then set the new entry. -/
def cacheInsertFifo {V : Type} (c : List (String × V)) (maxSize : Nat) (k : String) (v : V) :
    List (String × V) :=
  let c' :=
    if maxSize ≤ c.length then
      match c.head? with
      | some p => mapDelete c p.1
      | none => c
    else c
  mapSet c' k v

/-! ## DOM model -/

/-- A DOM element reference: ref is the reference identity, the other fields
are the element state.  sels is an oracle for CSS selector matching. -/
structure Elem where
  ref : Nat
  isElementNode : Bool
  id : String
  className : String
  nameAttr : String
  tagName : String
  sels : List String
deriving DecidableEq, Repr

/-- A document snapshot: the attached elements in document order, plus the
set of selector strings on which querySelector(All) throws a SyntaxError. -/
structure Dom where
  attachedElems : List Elem
  invalidSelectors : List String
deriving DecidableEq, Repr

def Dom.containsElem (d : Dom) (e : Elem) : Bool :=
  d.attachedElems.any (fun x => x.ref == e.ref)

def Dom.getElementById (d : Dom) (s : String) : Option Elem :=
  d.attachedElems.find? (fun e => e.id == s)

/-- Splitting a character list at every separator character (the list-level
counterpart of String.split, written with structural recursion so that it
evaluates inside the kernel). -/
def splitChars (p : Char → Bool) : List Char → List Char → List String
  | [], acc => [String.mk acc.reverse]
  | c :: rest, acc =>
      if p c then String.mk acc.reverse :: splitChars p rest []
      else splitChars p rest (c :: acc)

/-- split(/\s+/) followed by the truthiness filter used at every call site:
the nonempty whitespace-delimited tokens of a string. -/
def wsTokens (s : String) : List String :=
  (splitChars (fun ch => ch.isWhitespace) s.data []).filter (fun t => t != "")

/-- key.split(':'): all colon-separated segments of a string. -/
def splitOnColon (s : String) : List String :=
  splitChars (fun ch => ch = ':') s.data []

/-- String.prototype.toLowerCase, character by character. -/
def jsToLower (s : String) : String :=
  String.mk (s.data.map Char.toLower)

def Dom.getElementsByClassName (d : Dom) (v : String) : List Elem :=
  d.attachedElems.filter (fun e => (wsTokens e.className).contains v)

def Dom.getElementsByTagName (d : Dom) (v : String) : List Elem :=
  d.attachedElems.filter (fun e => e.tagName == v)

def Dom.getElementsByName (d : Dom) (v : String) : List Elem :=
  d.attachedElems.filter (fun e => e.nameAttr == v)

def Dom.querySelOne (d : Dom) (s : String) : Option Elem :=
  d.attachedElems.find? (fun e => e.sels.contains s)

def Dom.querySelAll (d : Dom) (s : String) : List Elem :=
  d.attachedElems.filter (fun e => e.sels.contains s)

def Dom.selectorThrows (d : Dom) (s : String) : Bool :=
  d.invalidSelectors.contains s

/-- A well-formed document: every attached node returned by the lookup APIs
is an element node. -/
def Dom.WF (d : Dom) : Prop :=
  ∀ e ∈ d.attachedElems, e.isElementNode = true

instance (d : Dom) : Decidable d.WF := by
  unfold Dom.WF; infer_instance

/-- charsLead sub s is true when sub is a leading segment of s. -/
def charsLead : List Char → List Char → Bool
  | [], _ => true
  | _ :: _, [] => false
  | a :: as, b :: bs => a == b && charsLead as bs

def strContainsAux (sub : List Char) : List Char → Bool
  | [] => sub.isEmpty
  | c :: rest => charsLead sub (c :: rest) || strContainsAux sub rest

/-- JavaScript String.prototype.includes. -/
def strContains (s sub : String) : Bool :=
  strContainsAux sub.data s.data

/-- A property key arriving at a helper: either a string or some non-string
value (a symbol, a number wrapped by a Proxy trap, and so on). -/
inductive JsProp where
  | str (s : String)
  | nonstr
deriving DecidableEq, Repr

/-! ## Elements helper (ProductionElementsHelper) -/

structure Options where
  enableLogging : Bool
  autoCleanup : Bool
  cleanupInterval : Nat
  maxCacheSize : Nat
  debounceDelay : Nat
  enableEnhancedSyntax : Bool
  enableSmartCaching : Bool
deriving DecidableEq, Repr

/-- State of a ProductionElementsHelper instance.  warnCalls counts calls to
_warn (console output additionally requires enableLogging); logCalls counts
emitted log lines.  observerConnected and timerActive model the
MutationObserver connection and the pending cleanup timer.  The weakCache
metadata is write-only in the source and is not modelled. -/
structure ElementsHelper where
  cache : List (String × Option Elem)
  opts : Options
  hits : Nat
  misses : Nat
  cacheSize : Nat
  lastCleanup : Nat
  isDestroyed : Bool
  observerConnected : Bool
  timerActive : Bool
  warnCalls : Nat
  logCalls : Nat
deriving DecidableEq, Repr

def ElementsHelper.warn (h : ElementsHelper) : ElementsHelper :=
  { h with warnCalls := h.warnCalls + 1 }

def ElementsHelper.emitLog (h : ElementsHelper) : ElementsHelper :=
  if h.opts.enableLogging then { h with logCalls := h.logCalls + 1 } else h

/-- Constructor state (observer attached, cleanup scheduled when autoCleanup). -/
def ElementsHelper.init (opts : Options) : ElementsHelper :=
  { cache := [], opts := opts, hits := 0, misses := 0, cacheSize := 0,
    lastCleanup := 0, isDestroyed := false, observerConnected := true,
    timerActive := opts.autoCleanup, warnCalls := 0, logCalls := 0 }

def ElementsHelper.addToCache (h : ElementsHelper) (idKey : String) (e : Elem) :
    ElementsHelper :=
  let cache := cacheInsertFifo h.cache h.opts.maxCacheSize idKey (some e)
  { h with cache := cache, cacheSize := cache.length }

/-- The fresh-query tail of _getElement, after the cache has been consulted. -/
def ElementsHelper.getElementMiss (d : Dom) (h : ElementsHelper) (p : String) :
    Option Elem × ElementsHelper :=
  match d.getElementById p with
  | some e =>
      let h := h.addToCache p e
      (some e, { h with misses := h.misses + 1 })
  | none =>
      let h := { h with misses := h.misses + 1 }
      let h := if h.opts.enableLogging then h.warn else h
      (none, h)

/-- _getElement: cache consultation with validity revalidation, then live
query fallback.  The hit path returns _enhanceElementWithUpdate(element),
which is the same element reference; the enhancement flag machinery is
modelled separately (EnhState below). -/
def ElementsHelper.getElement (d : Dom) (h : ElementsHelper) (prop : JsProp) :
    Option Elem × ElementsHelper :=
  match prop with
  | .nonstr => (none, h.warn)
  | .str p =>
    match mapGet h.cache p with
    | some (some e) =>
        if e.isElementNode && d.containsElem e then
          (some e, { h with hits := h.hits + 1 })
        else
          ElementsHelper.getElementMiss d { h with cache := mapDelete h.cache p } p
    | some none =>
        ElementsHelper.getElementMiss d { h with cache := mapDelete h.cache p } p
    | none => ElementsHelper.getElementMiss d h p

def ElementsHelper.clearCache (h : ElementsHelper) : ElementsHelper :=
  ElementsHelper.emitLog { h with cache := [], cacheSize := 0 }

def ElementsHelper.destroy (h : ElementsHelper) : ElementsHelper :=
  ElementsHelper.emitLog
    { h with isDestroyed := true, observerConnected := false,
             timerActive := false, cache := [] }

def ElementsHelper.isCached (h : ElementsHelper) (idKey : String) : Bool :=
  mapHas h.cache idKey

def ElementsHelper.getCacheSnapshot (h : ElementsHelper) : List String :=
  keysOf h.cache

/-- The staleness test of _performCleanup: !element, wrong node type,
detached, or the id attribute no longer matching the cache key. -/
def elemEntryStale (d : Dom) (idKey : String) (v : Option Elem) : Bool :=
  match v with
  | none => true
  | some e => !e.isElementNode || !d.containsElem e || e.id != idKey

def ElementsHelper.performCleanup (d : Dom) (now : Nat) (h : ElementsHelper) :
    ElementsHelper :=
  if h.isDestroyed then h
  else
    let staleIds := (h.cache.filter (fun p => elemEntryStale d p.1 p.2)).map Prod.fst
    let cache := staleIds.foldl (fun c k => mapDelete c k) h.cache
    let h' := { h with cache := cache, cacheSize := cache.length, lastCleanup := now }
    if h.opts.enableLogging && decide (0 < staleIds.length) then
      { h' with logCalls := h'.logCalls + 1 }
    else h'

/-- A sequence of lookups through the Elements proxy (property reads each
dispatch to _getElement). -/
def ElementsHelper.runLookups (d : Dom) (h : ElementsHelper) (ids : List String) :
    ElementsHelper :=
  ids.foldl (fun h i => (ElementsHelper.getElement d h (.str i)).2) h

/-! ## Mutation records

MutationObserver records, as consumed by the _processMutations methods.
Added and removed nodes are node trees (querySelectorAll('*') visits the
element descendants); attribute records carry the attribute name, the old
value (null unless attributeOldValue tracking captured one) and the target
element in its post-mutation state. -/

inductive DNode where
  | mk (isElement : Bool) (idAttr className nameAttr tagName : String)
       (children : List DNode)

def DNode.isElement : DNode → Bool
  | .mk b _ _ _ _ _ => b

def DNode.idAttr : DNode → String
  | .mk _ i _ _ _ _ => i

def DNode.className : DNode → String
  | .mk _ _ c _ _ _ => c

def DNode.nameAttr : DNode → String
  | .mk _ _ _ n _ _ => n

def DNode.tagName : DNode → String
  | .mk _ _ _ _ t _ => t

def DNode.children : DNode → List DNode
  | .mk _ _ _ _ _ cs => cs

mutual

def DNode.subNodes : DNode → List DNode
  | .mk _ _ _ _ _ cs => DNode.subNodesList cs

def DNode.subNodesList : List DNode → List DNode
  | [] => []
  | c :: rest => c :: (DNode.subNodes c ++ DNode.subNodesList rest)

end

/-- node.querySelectorAll('*'): the element descendants of a node. -/
def DNode.elemDescendants (n : DNode) : List DNode :=
  n.subNodes.filter DNode.isElement

inductive MutationRec where
  | childList (added removed : List DNode)
  | attr (attrName : String) (oldValue : Option String) (target : DNode)

def MutationRec.isChildList : MutationRec → Bool
  | .childList _ _ => true
  | .attr _ _ _ => false

/-! ## Collections helper (ProductionCollectionHelper) -/

inductive CollType where
  | className
  | tagName
  | nameK
deriving DecidableEq, Repr

def CollType.str : CollType → String
  | .className => "className"
  | .tagName => "tagName"
  | .nameK => "name"

/-- The enhanced collection wrapper built by _enhanceCollection: wid is the
identity of the wrapper object, hasOriginal models truthiness of the
_originalCollection field, and members is the member list of the underlying
live collection at the instant under consideration. -/
structure CollValue where
  hasOriginal : Bool
  members : List Elem
  wid : Nat
deriving DecidableEq, Repr

structure CollectionsHelper where
  cache : List (String × Option CollValue)
  opts : Options
  hits : Nat
  misses : Nat
  cacheSize : Nat
  lastCleanup : Nat
  isDestroyed : Bool
  observerConnected : Bool
  timerActive : Bool
  warnCalls : Nat
  logCalls : Nat
  nextWid : Nat
deriving DecidableEq, Repr

def CollectionsHelper.warn (h : CollectionsHelper) : CollectionsHelper :=
  { h with warnCalls := h.warnCalls + 1 }

def CollectionsHelper.emitLog (h : CollectionsHelper) : CollectionsHelper :=
  if h.opts.enableLogging then { h with logCalls := h.logCalls + 1 } else h

def CollectionsHelper.init (opts : Options) : CollectionsHelper :=
  { cache := [], opts := opts, hits := 0, misses := 0, cacheSize := 0,
    lastCleanup := 0, isDestroyed := false, observerConnected := true,
    timerActive := opts.autoCleanup, warnCalls := 0, logCalls := 0, nextWid := 0 }

def createCacheKey (ty : String) (v : String) : String :=
  ty ++ ":" ++ v

/-- _isValidCollection: requires a truthy collection with a truthy
_originalCollection; empty live collections are valid; otherwise the first
member must be an element node attached to the document. -/
def isValidCollection (d : Dom) (v : Option CollValue) : Bool :=
  match v with
  | none => false
  | some c =>
      if !c.hasOriginal then false
      else
        match c.members with
        | [] => true
        | e :: _ => e.isElementNode && d.containsElem e

/-- _createEmptyCollection: an enhanced wrapper over a synthetic empty
collection object (which is truthy, hence hasOriginal). -/
def emptyCollValue (wid : Nat) : CollValue :=
  { hasOriginal := true, members := [], wid := wid }

def CollectionsHelper.addToCache (h : CollectionsHelper) (key : String) (c : CollValue) :
    CollectionsHelper :=
  let cache := cacheInsertFifo h.cache h.opts.maxCacheSize key (some c)
  { h with cache := cache, cacheSize := cache.length }

def domCollection (d : Dom) : CollType → String → List Elem
  | .className, v => d.getElementsByClassName v
  | .tagName, v => d.getElementsByTagName v
  | .nameK, v => d.getElementsByName v

/-- The fresh-query tail of _getCollection. -/
def CollectionsHelper.getCollectionMiss (d : Dom) (h : CollectionsHelper)
    (ty : CollType) (v : String) : CollValue × CollectionsHelper :=
  let c : CollValue := { hasOriginal := true, members := domCollection d ty v, wid := h.nextWid }
  let h := { h with nextWid := h.nextWid + 1 }
  let h := h.addToCache (createCacheKey ty.str v) c
  (c, { h with misses := h.misses + 1 })

/-- _getCollection: non-string values degrade to an empty collection with a
warning; otherwise cache consultation with revalidation, then a live DOM
query.  On a valid hit the very same cached wrapper is returned. -/
def CollectionsHelper.getCollection (d : Dom) (h : CollectionsHelper)
    (ty : CollType) (v : JsProp) : CollValue × CollectionsHelper :=
  match v with
  | .nonstr =>
      let h := h.warn
      (emptyCollValue h.nextWid, { h with nextWid := h.nextWid + 1 })
  | .str v =>
    let key := createCacheKey ty.str v
    match mapGet h.cache key with
    | some cv =>
        if isValidCollection d cv then
          (cv.getD (emptyCollValue 0), { h with hits := h.hits + 1 })
        else
          CollectionsHelper.getCollectionMiss d { h with cache := mapDelete h.cache key } ty v
    | none => CollectionsHelper.getCollectionMiss d h ty v

def CollectionsHelper.clearCache (h : CollectionsHelper) : CollectionsHelper :=
  CollectionsHelper.emitLog { h with cache := [], cacheSize := 0 }

def CollectionsHelper.destroy (h : CollectionsHelper) : CollectionsHelper :=
  CollectionsHelper.emitLog
    { h with isDestroyed := true, observerConnected := false,
             timerActive := false, cache := [] }

def CollectionsHelper.isCached (h : CollectionsHelper) (ty : CollType) (v : String) : Bool :=
  mapHas h.cache (createCacheKey ty.str v)

def CollectionsHelper.getCacheSnapshot (h : CollectionsHelper) : List String :=
  keysOf h.cache

def CollectionsHelper.performCleanup (d : Dom) (now : Nat) (h : CollectionsHelper) :
    CollectionsHelper :=
  if h.isDestroyed then h
  else
    let staleKeys := (h.cache.filter (fun p => !isValidCollection d p.2)).map Prod.fst
    let cache := staleKeys.foldl (fun c k => mapDelete c k) h.cache
    let h' := { h with cache := cache, cacheSize := cache.length, lastCleanup := now }
    if h.opts.enableLogging && decide (0 < staleKeys.length) then
      { h' with logCalls := h'.logCalls + 1 }
    else h'

/-! ### Collections mutation processing

The source accumulates three JS Sets (affectedClasses, affectedNames,
affectedTags) by a forEach over the batch; only membership in these sets is
consumed, so they are modelled as the concatenation of per-record
contributions. -/

/-- Class tokens contributed by one added or removed node: its own className
tokens (behind a truthiness guard) plus those of its element descendants. -/
def nodeClasses (n : DNode) : List String :=
  (if n.className != "" then wsTokens n.className else []) ++
    n.elemDescendants.flatMap
      (fun c => if c.className != "" then wsTokens c.className else [])

def nodeNames (n : DNode) : List String :=
  (if n.nameAttr != "" then [n.nameAttr] else []) ++
    n.elemDescendants.flatMap
      (fun c => if c.nameAttr != "" then [c.nameAttr] else [])

def nodeTags (n : DNode) : List String :=
  jsToLower n.tagName ::
    n.elemDescendants.map (fun c => jsToLower c.tagName)

def recClasses : MutationRec → List String
  | .childList added removed =>
      (added ++ removed).flatMap (fun n => if n.isElement then nodeClasses n else [])
  | .attr a old tgt =>
      if a = "class" then
        wsTokens (old.getD "") ++ wsTokens tgt.className
      else []

def recNames : MutationRec → List String
  | .childList added removed =>
      (added ++ removed).flatMap (fun n => if n.isElement then nodeNames n else [])
  | .attr a old tgt =>
      if a = "name" then
        (match old with
         | some o => if o != "" then [o] else []
         | none => []) ++
        (if tgt.nameAttr != "" then [tgt.nameAttr] else [])
      else []

def recTags : MutationRec → List String
  | .childList added removed =>
      (added ++ removed).flatMap (fun n => if n.isElement then nodeTags n else [])
  | .attr _ _ _ => []

def affectedClasses (muts : List MutationRec) : List String :=
  muts.flatMap recClasses

def affectedNames (muts : List MutationRec) : List String :=
  muts.flatMap recNames

def affectedTags (muts : List MutationRec) : List String :=
  muts.flatMap recTags

/-- key.split(':', 2): the first segment. -/
def keyTypeSeg (k : String) : String :=
  (splitOnColon k).headD ""

/-- key.split(':', 2): the second segment, undefined when the key contains no
colon.  Note the JS limit argument truncates; everything after a second colon
is dropped. -/
def keyValueSeg (k : String) : Option String :=
  ((splitOnColon k).drop 1).head?

/-- The invalidation test applied to each cache key by the collections
_processMutations. -/
def collKeyMatched (muts : List MutationRec) (k : String) : Bool :=
  match keyValueSeg k with
  | none => false
  | some v =>
      (keyTypeSeg k == "className" && (affectedClasses muts).contains v) ||
      (keyTypeSeg k == "name" && (affectedNames muts).contains v) ||
      (keyTypeSeg k == "tagName" && (affectedTags muts).contains v)

def CollectionsHelper.processMutations (h : CollectionsHelper)
    (muts : List MutationRec) : CollectionsHelper :=
  if h.isDestroyed then h
  else
    let keysToDelete := (keysOf h.cache).filter (fun k => collKeyMatched muts k)
    let cache := keysToDelete.foldl (fun c k => mapDelete c k) h.cache
    let h' := { h with cache := cache, cacheSize := cache.length }
    if h.opts.enableLogging && decide (0 < keysToDelete.length) then
      { h' with logCalls := h'.logCalls + 1 }
    else h'

/-! ## Selector helper (ProductionSelectorHelper)

The stats.selectorTypes breakdown (regex classification of selectors) is
consumed by no claim and is left out of the state projection. -/

/-- The wrapper built by _enhanceNodeList over a (static) NodeList. -/
structure NodeListValue where
  hasOriginal : Bool
  members : List Elem
  wid : Nat
deriving DecidableEq, Repr

/-- A selector cache payload: a single-element query stores the element
reference or null, a multiple query stores the enhanced NodeList wrapper. -/
inductive SelPayload where
  | single (e : Option Elem)
  | multi (c : Option NodeListValue)
deriving DecidableEq, Repr

structure SelectorHelper where
  cache : List (String × SelPayload)
  opts : Options
  hits : Nat
  misses : Nat
  cacheSize : Nat
  lastCleanup : Nat
  isDestroyed : Bool
  observerConnected : Bool
  timerActive : Bool
  warnCalls : Nat
  logCalls : Nat
  nextWid : Nat
deriving DecidableEq, Repr

def SelectorHelper.warn (h : SelectorHelper) : SelectorHelper :=
  { h with warnCalls := h.warnCalls + 1 }

def SelectorHelper.emitLog (h : SelectorHelper) : SelectorHelper :=
  if h.opts.enableLogging then { h with logCalls := h.logCalls + 1 } else h

def SelectorHelper.init (opts : Options) : SelectorHelper :=
  { cache := [], opts := opts, hits := 0, misses := 0, cacheSize := 0,
    lastCleanup := 0, isDestroyed := false,
    observerConnected := opts.enableSmartCaching,
    timerActive := opts.autoCleanup, warnCalls := 0, logCalls := 0, nextWid := 0 }

/-- _isValidQuery: a single payload must be a non-null element node attached
to the document; a multiple payload must carry a truthy _originalNodeList and
be empty or have its first member attached.  A payload of the other shape
fails the respective property accesses and is invalid. -/
def isValidQuery (d : Dom) (p : SelPayload) (single : Bool) : Bool :=
  if single then
    match p with
    | .single (some e) => e.isElementNode && d.containsElem e
    | .single none => false
    | .multi _ => false
  else
    match p with
    | .multi (some nl) =>
        if !nl.hasOriginal then false
        else
          match nl.members with
          | [] => true
          | e :: _ => d.containsElem e
    | .multi none => false
    | .single _ => false

def selCacheKey (single : Bool) (selector : String) : String :=
  (if single then "single" else "multiple") ++ ":" ++ selector

def SelectorHelper.addToCache (h : SelectorHelper) (key : String) (p : SelPayload) :
    SelectorHelper :=
  let cache := cacheInsertFifo h.cache h.opts.maxCacheSize key p
  { h with cache := cache, cacheSize := cache.length }

/-- _createEmptyCollection: an enhanced wrapper over an empty NodeList. -/
def emptyNodeListValue (wid : Nat) : NodeListValue :=
  { hasOriginal := true, members := [], wid := wid }

/-- The fresh-query tail of _getQuery: the try block around
querySelector/querySelectorAll, with the catch producing a warned empty
result, then caching and stats. -/
def SelectorHelper.getQueryMiss (d : Dom) (h : SelectorHelper)
    (single : Bool) (selector : String) : SelPayload × SelectorHelper :=
  if d.selectorThrows selector then
    let h := h.warn
    if single then (.single none, h)
    else (.multi (some (emptyNodeListValue h.nextWid)), { h with nextWid := h.nextWid + 1 })
  else
    let result : SelPayload :=
      if single then .single (d.querySelOne selector)
      else .multi (some { hasOriginal := true, members := d.querySelAll selector,
                          wid := h.nextWid })
    let h := if single then h else { h with nextWid := h.nextWid + 1 }
    let h := h.addToCache (selCacheKey single selector) result
    (result, { h with misses := h.misses + 1 })

/-- _getQuery: non-string selectors degrade to null or an empty collection
with a warning; otherwise cache consultation with revalidation, then the
fresh query.  A null single result is cached as null. -/
def SelectorHelper.getQuery (d : Dom) (h : SelectorHelper)
    (single : Bool) (selector : JsProp) : SelPayload × SelectorHelper :=
  match selector with
  | .nonstr =>
      let h := h.warn
      if single then (.single none, h)
      else (.multi (some (emptyNodeListValue h.nextWid)), { h with nextWid := h.nextWid + 1 })
  | .str s =>
    let key := selCacheKey single s
    match mapGet h.cache key with
    | some p =>
        if isValidQuery d p single then
          (p, { h with hits := h.hits + 1 })
        else
          SelectorHelper.getQueryMiss d { h with cache := mapDelete h.cache key } single s
    | none => SelectorHelper.getQueryMiss d h single s

def SelectorHelper.clearCache (h : SelectorHelper) : SelectorHelper :=
  SelectorHelper.emitLog { h with cache := [], cacheSize := 0 }

def SelectorHelper.destroy (h : SelectorHelper) : SelectorHelper :=
  SelectorHelper.emitLog
    { h with isDestroyed := true, observerConnected := false,
             timerActive := false, cache := [] }

/-- _performCleanup derives the validation mode from key.split(':', 1): any
key whose first segment is not "single" is validated as a multiple query. -/
def SelectorHelper.performCleanup (d : Dom) (now : Nat) (h : SelectorHelper) :
    SelectorHelper :=
  if h.isDestroyed then h
  else
    let staleKeys :=
      (h.cache.filter (fun p => !isValidQuery d p.2 (keyTypeSeg p.1 == "single"))).map Prod.fst
    let cache := staleKeys.foldl (fun c k => mapDelete c k) h.cache
    let h' := { h with cache := cache, cacheSize := cache.length, lastCleanup := now }
    if h.opts.enableLogging && decide (0 < staleKeys.length) then
      { h' with logCalls := h'.logCalls + 1 }
    else h'

/-! ### Selector mutation processing -/

/-- The affected-selector fragments contributed by one record: a childList
record contributes the universal signal; an attribute record contributes the
old and new hash-id fragments for id changes, a dot fragment per old and new
class token for class changes, and always the bracketed attribute name. -/
def recSelFrags : MutationRec → List String
  | .childList _ _ => ["*"]
  | .attr a old tgt =>
      (if a = "id" then
        (match old with
         | some o => if o != "" then ["#" ++ o] else []
         | none => []) ++
        (if tgt.idAttr != "" then ["#" ++ tgt.idAttr] else [])
      else []) ++
      (if a = "class" then
        (wsTokens (old.getD "") ++ wsTokens tgt.className).map (fun c => "." ++ c)
      else []) ++
      ["[" ++ a ++ "]"]

def affectedSelectors (muts : List MutationRec) : List String :=
  muts.flatMap recSelFrags

/-- The selective-invalidation test: the key is parsed with split(':', 2) and
the (truncated) selector segment is tested with String.includes against each
affected fragment. -/
def selKeyMatched (muts : List MutationRec) (k : String) : Bool :=
  (affectedSelectors muts).any
    (fun f => strContains (((splitOnColon k).drop 1).headD "") f)

def SelectorHelper.processMutations (h : SelectorHelper)
    (muts : List MutationRec) : SelectorHelper :=
  if h.isDestroyed then h
  else
    let affected := affectedSelectors muts
    if affected.contains "*" then
      { h with cache := [], cacheSize := 0 }
    else
      let keysToDelete := (keysOf h.cache).filter (fun k => selKeyMatched muts k)
      let cache := keysToDelete.foldl (fun c k => mapDelete c k) h.cache
      { h with cache := cache, cacheSize := cache.length }

/-! ## Element enhancement state (.update decoration)

The decoration flags live on the element object itself; defineCount counts
how many times defineProperty installs the update method on that element.
These model the inline fallback paths (the update utility modules absent). -/

structure EnhState where
  hasUpdateMethod : Bool
  hasEnhancedUpdateMethod : Bool
  defineCount : Nat
deriving DecidableEq, Repr

def freshEnhState : EnhState :=
  { hasUpdateMethod := false, hasEnhancedUpdateMethod := false, defineCount := 0 }

/-- elements-helper _enhanceElementWithUpdate fallback: guarded by
_hasUpdateMethod, marks _hasUpdateMethod. -/
def elementsEnhance (s : EnhState) : EnhState :=
  if s.hasUpdateMethod then s
  else { s with defineCount := s.defineCount + 1, hasUpdateMethod := true }

/-- selector-helper _enhanceElementWithUpdate fallback: guarded by
_hasEnhancedUpdateMethod, but marks _hasUpdateMethod. -/
def selectorEnhance (s : EnhState) : EnhState :=
  if s.hasEnhancedUpdateMethod then s
  else { s with defineCount := s.defineCount + 1, hasUpdateMethod := true }

/-! ## destructure and waitFor (elements helper), waitForSelector

The ~100ms polling loops are modelled against a stream of document
snapshots, one per poll instant; the while-loop bound of maxWait
milliseconds at checkInterval milliseconds per iteration yields
maxWait / checkInterval polls. -/

/-- Reading elements[id] from the record built by destructure. -/
def recordLookup (pairs : List (String × Option Elem)) (i : String) : Option Elem :=
  (pairs.find? (fun p => p.1 == i)).bind (fun p => p.2)

/-- One iteration of the destructure forEach: look the id up through the
Elements proxy and record the result (or null) under that id. -/
def destructureStep (d : Dom) (acc : List (String × Option Elem) × ElementsHelper)
    (i : String) : List (String × Option Elem) × ElementsHelper :=
  (acc.1 ++ [(i, (ElementsHelper.getElement d acc.2 (.str i)).1)],
   (ElementsHelper.getElement d acc.2 (.str i)).2)

def ElementsHelper.destructure (d : Dom) (h : ElementsHelper) (ids : List String) :
    List (String × Option Elem) × ElementsHelper :=
  let res := ids.foldl (destructureStep d) ([], h)
  let missingCount := (res.1.filter (fun p => p.2.isNone)).length
  if decide (0 < missingCount) && res.2.opts.enableLogging then
    (res.1, res.2.warn)
  else res

/-- The hard-coded maxWait of the elements-helper waitFor. -/
def waitForMaxWait : Nat := 5000

/-- The fixed poll interval shared by every waitFor variant. -/
def waitForCheckInterval : Nat := 100

def waitForTimeoutMsg (ids : List String) : String :=
  "Timeout waiting for elements: " ++ String.intercalate ", " ids

def ElementsHelper.waitForAux (doms : Nat → Dom) (ids : List String) :
    Nat → Nat → ElementsHelper →
      Except String (List (String × Option Elem)) × ElementsHelper
  | 0, _, h => (.error (waitForTimeoutMsg ids), h)
  | fuel + 1, tick, h =>
      let d := doms tick
      let res := ElementsHelper.destructure d h ids
      if ids.all (fun i => (recordLookup res.1 i).isSome) then (.ok res.1, res.2)
      else ElementsHelper.waitForAux doms ids fuel (tick + 1) res.2

/-- waitFor(...ids): the timeout is the hard-coded constant, not an
argument. -/
def ElementsHelper.waitFor (doms : Nat → Dom) (h : ElementsHelper) (ids : List String) :
    Except String (List (String × Option Elem)) × ElementsHelper :=
  ElementsHelper.waitForAux doms ids (waitForMaxWait / waitForCheckInterval) 0 h

def SelectorHelper.waitForSelectorAux (doms : Nat → Dom) (selector : String) :
    Nat → Nat → SelectorHelper → Except String Elem × SelectorHelper
  | 0, _, h => (.error ("Timeout waiting for selector: " ++ selector), h)
  | fuel + 1, tick, h =>
      let d := doms tick
      let res := SelectorHelper.getQuery d h true (.str selector)
      match res.1 with
      | .single (some e) => (.ok e, res.2)
      | _ => SelectorHelper.waitForSelectorAux doms selector fuel (tick + 1) res.2

/-- waitForSelector(selector, timeout = 5000): the timeout here is
caller-supplied. -/
def SelectorHelper.waitForSelector (doms : Nat → Dom) (h : SelectorHelper)
    (selector : String) (timeout : Nat) : Except String Elem × SelectorHelper :=
  SelectorHelper.waitForSelectorAux doms selector (timeout / waitForCheckInterval) 0 h

/-! ## The Validity Checker as the spec words it (for the reaper claim) -/

/-- Spec 4.2, single-element payload: non-null, of element-node kind,
currently attached to the document. -/
def specValidSingleElem (d : Dom) (v : Option Elem) : Bool :=
  match v with
  | none => false
  | some e => e.isElementNode && d.containsElem e

/-- Spec 4.2, collection payload: non-null wrapper around a live collection
that is empty (vacuously valid) or whose first member is currently
attached. -/
def specValidCollection (d : Dom) (v : Option CollValue) : Bool :=
  match v with
  | none => false
  | some c =>
      c.hasOriginal &&
        (match c.members with
         | [] => true
         | e :: _ => d.containsElem e)

/-- Spec 4.2 applied to a selector cache payload, by payload shape. -/
def specValidSelPayload (d : Dom) (p : SelPayload) : Bool :=
  match p with
  | .single v => specValidSingleElem d v
  | .multi none => false
  | .multi (some nl) =>
      nl.hasOriginal &&
        (match nl.members with
         | [] => true
         | e :: _ => d.containsElem e)

/-! ## Lemmas about the Map model -/

theorem mem_keysOf {V : Type} {c : List (String × V)} {k : String} :
    k ∈ keysOf c ↔ ∃ p ∈ c, p.1 = k := by
  simp [keysOf, List.mem_map, eq_comm]

theorem mapHas_eq_false_of_not_mem {V : Type} {c : List (String × V)} {k : String}
    (h : k ∉ keysOf c) : mapHas c k = false := by
  simp only [mapHas, List.any_eq_false, beq_iff_eq]
  intro p hp he
  exact h (mem_keysOf.mpr ⟨p, hp, he⟩)

theorem mapGet_eq_none_of_not_mem {V : Type} {c : List (String × V)} {k : String}
    (h : k ∉ keysOf c) : mapGet c k = none := by
  unfold mapGet
  rw [List.find?_eq_none.mpr, Option.map_none']
  intro p hp
  simp only [beq_iff_eq]
  intro he
  exact h (mem_keysOf.mpr ⟨p, hp, he⟩)

theorem keysOf_append {V : Type} (a b : List (String × V)) :
    keysOf (a ++ b) = keysOf a ++ keysOf b := by
  simp [keysOf]

theorem mapSet_of_not_mem {V : Type} {c : List (String × V)} {k : String} (v : V)
    (h : k ∉ keysOf c) : mapSet c k v = c ++ [(k, v)] := by
  unfold mapSet
  rw [mapHas_eq_false_of_not_mem h]
  rfl

theorem mapDelete_of_not_mem {V : Type} {c : List (String × V)} {k : String}
    (h : k ∉ keysOf c) : mapDelete c k = c := by
  unfold mapDelete
  apply List.filter_eq_self.mpr
  intro p hp
  simp only [bne_iff_ne, ne_eq]
  intro he
  exact h (mem_keysOf.mpr ⟨p, hp, he⟩)

theorem mapDelete_cons_self {V : Type} (p : String × V) (t : List (String × V))
    (hnd : p.1 ∉ keysOf t) : mapDelete (p :: t) p.1 = t := by
  unfold mapDelete
  rw [List.filter_cons_of_neg (by simp)]
  exact mapDelete_of_not_mem hnd

theorem foldl_mapDelete_eq_filter {V : Type} (ks : List String) (c : List (String × V)) :
    ks.foldl (fun c k => mapDelete c k) c = c.filter (fun p => !(ks.contains p.1)) := by
  induction ks generalizing c with
  | nil => simp
  | cons k ks ih =>
      rw [List.foldl_cons, ih]
      unfold mapDelete
      rw [List.filter_filter]
      apply List.filter_congr
      intro p _
      cases hpk : p.1 == k <;> cases hks : ks.contains p.1 <;>
        simp_all [List.contains_cons, bne]

theorem mapGet_updated {V : Type} (c : List (String × V)) (k : String) (v : V)
    (hhas : mapHas c k = true) :
    mapGet (c.map (fun p => if p.1 == k then (k, v) else p)) k = some v := by
  induction c with
  | nil => simp [mapHas] at hhas
  | cons p t ih =>
      rw [List.map_cons]
      by_cases hp : (p.1 == k) = true
      · rw [if_pos hp]
        unfold mapGet
        rw [List.find?_cons_of_pos _ (by simp)]
        rfl
      · rw [if_neg hp]
        have ht : mapHas t k = true := by
          simp only [mapHas, List.any_cons] at hhas
          rcases Bool.or_eq_true_iff.mp hhas with h1 | h1
          · exact absurd h1 hp
          · exact h1
        have := ih ht
        unfold mapGet at this ⊢
        rwa [List.find?_cons_of_neg _ (by simpa using hp)]

theorem mapGet_mapSet_self {V : Type} (c : List (String × V)) (k : String) (v : V) :
    mapGet (mapSet c k v) k = some v := by
  unfold mapSet
  by_cases hhas : mapHas c k = true
  · rw [if_pos hhas]
    exact mapGet_updated c k v hhas
  · rw [if_neg hhas]
    have hnk : k ∉ keysOf c := by
      intro hk
      rcases mem_keysOf.mp hk with ⟨p, hp, he⟩
      have : mapHas c k = true := by
        simp only [mapHas, List.any_eq_true]
        exact ⟨p, hp, by simp [he]⟩
      exact hhas this
    have h1 : List.find? (fun p => p.1 == k) c = none := by
      apply List.find?_eq_none.mpr
      intro p hp
      simp only [beq_iff_eq]
      intro he
      exact hnk (mem_keysOf.mpr ⟨p, hp, he⟩)
    unfold mapGet
    rw [List.find?_append, h1]
    simp [List.find?_cons]

theorem keysOf_cacheInsertFifo_small {V : Type} {c : List (String × V)} {N : Nat}
    (k : String) (v : V) (hk : k ∉ keysOf c) (hlt : c.length < N) :
    cacheInsertFifo c N k v = c ++ [(k, v)] := by
  unfold cacheInsertFifo
  rw [if_neg (by omega)]
  exact mapSet_of_not_mem v hk

theorem keysOf_cacheInsertFifo_full {V : Type} {p : String × V} {t : List (String × V)}
    {N : Nat} (k : String) (v : V) (hk : k ∉ keysOf (p :: t))
    (hnd : (keysOf (p :: t)).Nodup) (hfull : N ≤ (p :: t).length) :
    cacheInsertFifo (p :: t) N k v = t ++ [(k, v)] := by
  unfold cacheInsertFifo
  rw [if_pos (by simpa using hfull)]
  simp only [List.head?_cons]
  have hpt : p.1 ∉ keysOf t := by
    have := hnd
    simp only [keysOf, List.map_cons, List.nodup_cons] at this
    exact fun hm => this.1 (by simpa [keysOf] using hm)
  rw [mapDelete_cons_self p t hpt]
  apply mapSet_of_not_mem
  intro hm
  exact hk (by simp [keysOf] at hm ⊢; exact Or.inr hm)

theorem keysOf_mapSet_mem {V : Type} {c : List (String × V)} {k x : String} {v : V}
    (hx : x ∈ keysOf (mapSet c k v)) : x ∈ keysOf c ∨ x = k := by
  unfold mapSet at hx
  by_cases hhas : mapHas c k = true
  · rw [if_pos hhas] at hx
    rcases mem_keysOf.mp hx with ⟨p, hp, he⟩
    rcases List.mem_map.mp hp with ⟨q, hq, hupd⟩
    by_cases hqk : (q.1 == k) = true
    · right
      rw [if_pos hqk] at hupd
      rw [← hupd] at he
      exact he.symm
    · left
      rw [if_neg hqk] at hupd
      rw [← hupd] at he
      exact mem_keysOf.mpr ⟨q, hq, he⟩
  · rw [if_neg hhas, keysOf_append] at hx
    rcases List.mem_append.mp hx with h1 | h1
    · exact Or.inl h1
    · right
      simpa [keysOf] using h1

/-- A lookup of a fresh id that getElementById resolves runs the miss path
and inserts through the shared FIFO step. -/
theorem getElement_fresh_found (d : Dom) (h : ElementsHelper) (i : String) (e : Elem)
    (hfresh : i ∉ keysOf h.cache) (he : d.getElementById i = some e) :
    (ElementsHelper.getElement d h (.str i)).2.cache =
        cacheInsertFifo h.cache h.opts.maxCacheSize i (some e) ∧
    (ElementsHelper.getElement d h (.str i)).2.opts = h.opts := by
  simp only [ElementsHelper.getElement]
  rw [mapGet_eq_none_of_not_mem hfresh]
  simp only [ElementsHelper.getElementMiss, he, ElementsHelper.addToCache]
  exact ⟨by trivial, by trivial⟩

/-- The FIFO fold invariant: looking up a run of fresh, resolvable, distinct
ids leaves exactly the most recent maxCacheSize keys, in insertion order. -/
theorem runLookups_keys (d : Dom) (N : Nat) (hN : 1 ≤ N) :
    ∀ (ids : List String) (h : ElementsHelper),
      h.opts.maxCacheSize = N →
      (keysOf h.cache).Nodup →
      h.cache.length ≤ N →
      ids.Nodup →
      (∀ i ∈ ids, i ∉ keysOf h.cache) →
      (∀ i ∈ ids, (d.getElementById i).isSome = true) →
      keysOf (ElementsHelper.runLookups d h ids).cache =
        (keysOf h.cache ++ ids).drop ((keysOf h.cache ++ ids).length - N) := by
  intro ids
  induction ids with
  | nil =>
      intro h _ _ hlen _ _ _
      have hkl : (keysOf h.cache).length = h.cache.length := by simp [keysOf]
      simp only [ElementsHelper.runLookups, List.foldl_nil, List.append_nil]
      rw [Nat.sub_eq_zero_of_le (by omega), List.drop_zero]
  | cons i rest ih =>
      intro h hopts hnd hlen hids hfresh hfound
      obtain ⟨e, he⟩ := Option.isSome_iff_exists.mp (hfound i (by simp))
      have hfr : i ∉ keysOf h.cache := hfresh i (by simp)
      obtain ⟨hcache, hopts'⟩ := getElement_fresh_found d h i e hfr he
      have hkl : (keysOf h.cache).length = h.cache.length := by simp [keysOf]
      set h' := (ElementsHelper.getElement d h (.str i)).2 with hh'
      have hrun : ElementsHelper.runLookups d h (i :: rest) =
          ElementsHelper.runLookups d h' rest := by
        simp [ElementsHelper.runLookups]
      by_cases hsmall : h.cache.length < N
      · have hc : h'.cache = h.cache ++ [(i, some e)] := by
          rw [hcache, hopts]
          exact keysOf_cacheInsertFifo_small i (some e) hfr hsmall
        have hkeys' : keysOf h'.cache = keysOf h.cache ++ [i] := by
          rw [hc, keysOf_append]; rfl
        have := ih h' (by rw [hopts', hopts])
          (by rw [hkeys']
              simp only [List.nodup_append, List.nodup_cons]
              exact ⟨hnd, by simp, by simpa using hfr⟩)
          (by rw [hc]; simp; omega)
          (by exact (List.nodup_cons.mp hids).2)
          (by intro j hj
              rw [hkeys']
              intro hmem
              rcases List.mem_append.mp hmem with h1 | h1
              · exact hfresh j (by simp [hj]) h1
              · have : j = i := by simpa using h1
                exact (List.nodup_cons.mp hids).1 (this ▸ hj))
          (by intro j hj; exact hfound j (by simp [hj]))
        rw [hrun, this, hkeys']
        rw [List.append_assoc, List.singleton_append]
      · have hlenN : h.cache.length = N := by omega
        have hne : h.cache ≠ [] := by
          intro hno
          rw [hno] at hlenN
          simp at hlenN
          omega
        obtain ⟨p, t, hc0⟩ := List.exists_cons_of_ne_nil hne
        have hc : h'.cache = t ++ [(i, some e)] := by
          rw [hcache, hopts, hc0]
          exact keysOf_cacheInsertFifo_full i (some e) (hc0 ▸ hfr) (hc0 ▸ hnd)
            (by rw [← hc0, hlenN])
        have hkeys' : keysOf h'.cache = keysOf t ++ [i] := by
          rw [hc, keysOf_append]; rfl
        have hndt : (keysOf t).Nodup := by
          rw [hc0] at hnd
          simp only [keysOf, List.map_cons, List.nodup_cons] at hnd
          exact hnd.2
        have hp1t : p.1 ∉ keysOf t := by
          rw [hc0] at hnd
          simp only [keysOf, List.map_cons, List.nodup_cons] at hnd
          exact fun hm => hnd.1 (by simpa [keysOf] using hm)
        have hlt : t.length + 1 = N := by
          rw [hc0] at hlenN
          simpa using hlenN
        have := ih h' (by rw [hopts', hopts])
          (by rw [hkeys']
              simp only [List.nodup_append, List.nodup_cons]
              refine ⟨hndt, by simp, ?_⟩
              intro j hj
              simp only [List.mem_singleton]
              intro hji
              subst hji
              apply hfr
              rw [hc0]
              simp only [keysOf, List.map_cons, List.mem_cons]
              exact Or.inr (by simpa [keysOf] using hj))
          (by rw [hc]; simp; omega)
          ((List.nodup_cons.mp hids).2)
          (by intro j hj
              rw [hkeys']
              intro hmem
              rcases List.mem_append.mp hmem with h1 | h1
              · apply hfresh j (by simp [hj])
                rw [hc0]
                simp only [keysOf, List.map_cons, List.mem_cons]
                right
                simpa [keysOf] using h1
              · have : j = i := by simpa using h1
                exact (List.nodup_cons.mp hids).1 (this ▸ hj))
          (by intro j hj; exact hfound j (by simp [hj]))
        rw [hrun, this, hkeys']
        have hklt : (keysOf t).length = t.length := by simp [keysOf]
        have hklc : (keysOf h.cache) = p.1 :: keysOf t := by
          rw [hc0]; rfl
        rw [hklc]
        have harith1 : ((keysOf t ++ [i]) ++ rest).length - N = rest.length := by
          simp only [List.length_append, List.length_cons, List.length_nil]
          omega
        have harith2 : ((p.1 :: keysOf t) ++ (i :: rest)).length - N = rest.length + 1 := by
          simp only [List.length_append, List.length_cons]
          omega
        rw [harith1, harith2, List.append_assoc, List.singleton_append]
        rw [List.cons_append, List.drop_succ_cons]

/-! ## Concrete sample values used by witnesses -/

def sampleElem (n : Nat) (idv : String) : Elem :=
  { ref := n, isElementNode := true, id := idv, className := "", nameAttr := "",
    tagName := "DIV", sels := [] }

def sampleDomABC : Dom :=
  { attachedElems := [sampleElem 1 "a", sampleElem 2 "b", sampleElem 3 "c"],
    invalidSelectors := [] }

def sampleDomBad : Dom :=
  { attachedElems := [sampleElem 1 "a"], invalidSelectors := ["##bad["] }

def sampleOpts (n : Nat) : Options :=
  { enableLogging := false, autoCleanup := true, cleanupInterval := 30000,
    maxCacheSize := n, debounceDelay := 16, enableEnhancedSyntax := true,
    enableSmartCaching := true }

/-! ## Claim C1 -/

/-- C1: with maxCacheSize = N (N at least 1), every cache insertion into a
store already holding at least N entries first evicts the oldest-inserted
entry (the head of the insertion-ordered map) before inserting - stated about
cacheInsertFifo, the insertion step shared by the three helpers - and a run
of lookups for distinct resolvable discriminators through the elements helper
leaves a cache of at most N entries whose keys are exactly the most recently
inserted discriminators in insertion order, the earliest-inserted ones having
been evicted first. -/
theorem claim_C1_fifo_bounded_cache
    {V : Type} (c : List (String × V)) (k : String) (v : V)
    (d : Dom) (opts : Options) (ids : List String) (N : Nat)
    (hN : 1 ≤ N)
    (hnd : (keysOf c).Nodup) (hfull : N ≤ c.length)
    (hopts : opts.maxCacheSize = N)
    (hids : ids.Nodup)
    (hfound : ∀ i ∈ ids, (d.getElementById i).isSome = true) :
    (∃ hd tl, c = hd :: tl ∧
        cacheInsertFifo c N k v = mapSet tl k v ∧
        (k ≠ hd.1 → hd.1 ∉ keysOf (cacheInsertFifo c N k v))) ∧
    keysOf (ElementsHelper.runLookups d (ElementsHelper.init opts) ids).cache =
        ids.drop (ids.length - N) ∧
    (ElementsHelper.runLookups d (ElementsHelper.init opts) ids).cache.length ≤ N := by
  have hkeys : keysOf (ElementsHelper.runLookups d (ElementsHelper.init opts) ids).cache
      = ids.drop (ids.length - N) := by
    have h0 : keysOf ((ElementsHelper.init opts).cache) = ([] : List String) := rfl
    have := runLookups_keys d N hN ids (ElementsHelper.init opts) hopts
      (by rw [h0]; exact List.nodup_nil)
      (by simp [ElementsHelper.init])
      hids
      (by intro i _; rw [h0]; exact List.not_mem_nil i)
      hfound
    rw [h0, List.nil_append] at this
    exact this
  refine ⟨?_, hkeys, ?_⟩
  · have hne : c ≠ [] := by
      intro h0
      rw [h0] at hfull
      simp at hfull
      omega
    obtain ⟨hd, tl, hc⟩ := List.exists_cons_of_ne_nil hne
    have hhdtl : hd.1 ∉ keysOf tl := by
      rw [hc] at hnd
      simp only [keysOf, List.map_cons, List.nodup_cons] at hnd
      exact fun hm => hnd.1 (by simpa [keysOf] using hm)
    have hins : cacheInsertFifo c N k v = mapSet tl k v := by
      unfold cacheInsertFifo
      rw [if_pos hfull, hc]
      simp only [List.head?_cons]
      rw [mapDelete_cons_self hd tl hhdtl]
    refine ⟨hd, tl, hc, hins, ?_⟩
    intro hkne hmem
    rw [hins] at hmem
    rcases keysOf_mapSet_mem hmem with h1 | h1
    · exact hhdtl h1
    · exact hkne h1.symm
  · have hl : (keysOf (ElementsHelper.runLookups d (ElementsHelper.init opts) ids).cache).length
        = (ElementsHelper.runLookups d (ElementsHelper.init opts) ids).cache.length := by
      simp [keysOf]
    rw [← hl, hkeys, List.length_drop]
    omega

/-- Witness for C1: maxCacheSize 2, full store of two entries, and three
distinct lookups, of which the last two survive. -/
theorem claim_C1_fifo_bounded_cache_witness :
    (∃ hd tl, [("x", (0 : Nat)), ("y", 1)] = hd :: tl ∧
        cacheInsertFifo [("x", (0 : Nat)), ("y", 1)] 2 "z" 5 = mapSet tl "z" 5 ∧
        ("z" ≠ hd.1 → hd.1 ∉ keysOf (cacheInsertFifo [("x", (0 : Nat)), ("y", 1)] 2 "z" 5))) ∧
    keysOf (ElementsHelper.runLookups sampleDomABC
        (ElementsHelper.init (sampleOpts 2)) ["a", "b", "c"]).cache =
        ["a", "b", "c"].drop (["a", "b", "c"].length - 2) ∧
    (ElementsHelper.runLookups sampleDomABC
        (ElementsHelper.init (sampleOpts 2)) ["a", "b", "c"]).cache.length ≤ 2 :=
  claim_C1_fifo_bounded_cache [("x", (0 : Nat)), ("y", 1)] "z" 5 sampleDomABC
    (sampleOpts 2) ["a", "b", "c"] 2 (by decide) (by decide) (by decide) (by decide)
    (by decide) (by decide)

/-! ## Claim C10 -/

/-- C10: clearCache on each helper empties the cache and zeroes the reported
cacheSize, after which isCached is false for every key and the cache snapshot
is empty, while the hit and miss counters, the configuration options, the
mutation observer connection, the cleanup timer, and the destroyed flag are
all left unchanged.  (The selector helper exposes no isCached or
getCacheSnapshot method; its conjuncts state the emptied store directly.) -/
theorem claim_C10_clearCache_frame
    (he : ElementsHelper) (hc : CollectionsHelper) (hs : SelectorHelper) :
    (he.clearCache.cache = [] ∧ he.clearCache.cacheSize = 0 ∧
     (∀ k, he.clearCache.isCached k = false) ∧
     he.clearCache.getCacheSnapshot = [] ∧
     he.clearCache.hits = he.hits ∧ he.clearCache.misses = he.misses ∧
     he.clearCache.opts = he.opts ∧
     he.clearCache.observerConnected = he.observerConnected ∧
     he.clearCache.timerActive = he.timerActive ∧
     he.clearCache.isDestroyed = he.isDestroyed) ∧
    (hc.clearCache.cache = [] ∧ hc.clearCache.cacheSize = 0 ∧
     (∀ ty v, hc.clearCache.isCached ty v = false) ∧
     hc.clearCache.getCacheSnapshot = [] ∧
     hc.clearCache.hits = hc.hits ∧ hc.clearCache.misses = hc.misses ∧
     hc.clearCache.opts = hc.opts ∧
     hc.clearCache.observerConnected = hc.observerConnected ∧
     hc.clearCache.timerActive = hc.timerActive ∧
     hc.clearCache.isDestroyed = hc.isDestroyed) ∧
    (hs.clearCache.cache = [] ∧ hs.clearCache.cacheSize = 0 ∧
     (∀ k, mapHas hs.clearCache.cache k = false) ∧
     hs.clearCache.hits = hs.hits ∧ hs.clearCache.misses = hs.misses ∧
     hs.clearCache.opts = hs.opts ∧
     hs.clearCache.observerConnected = hs.observerConnected ∧
     hs.clearCache.timerActive = hs.timerActive ∧
     hs.clearCache.isDestroyed = hs.isDestroyed) := by
  unfold ElementsHelper.clearCache CollectionsHelper.clearCache SelectorHelper.clearCache
    ElementsHelper.emitLog CollectionsHelper.emitLog SelectorHelper.emitLog
  by_cases h1 : he.opts.enableLogging <;>
    by_cases h2 : hc.opts.enableLogging <;>
      by_cases h3 : hs.opts.enableLogging <;>
        simp [h1, h2, h3, ElementsHelper.isCached, CollectionsHelper.isCached,
          ElementsHelper.getCacheSnapshot, CollectionsHelper.getCacheSnapshot,
          keysOf, mapHas]

/-! ## Claim C7 -/

theorem containsElem_of_mem {d : Dom} {e : Elem} (hm : e ∈ d.attachedElems) :
    d.containsElem e = true := by
  simp only [Dom.containsElem, List.any_eq_true]
  exact ⟨e, hm, by simp⟩

theorem getElementById_mem {d : Dom} {p : String} {e : Elem}
    (he : d.getElementById p = some e) : e ∈ d.attachedElems :=
  List.mem_of_find?_eq_some he

/-! Equation lemmas for the branches of _getElement and _getCollection. -/

theorem getElementMiss_found (d : Dom) (h' : ElementsHelper) (p : String) (e1 : Elem)
    (hid : d.getElementById p = some e1) :
    ElementsHelper.getElementMiss d h' p =
      (some e1, { h'.addToCache p e1 with misses := h'.misses + 1 }) := by
  unfold ElementsHelper.getElementMiss
  rw [hid]
  rfl

theorem getElementMiss_notfound (d : Dom) (h' : ElementsHelper) (p : String)
    (hid : d.getElementById p = none) :
    ElementsHelper.getElementMiss d h' p =
      (none,
        if h'.opts.enableLogging then
          ElementsHelper.warn { h' with misses := h'.misses + 1 }
        else { h' with misses := h'.misses + 1 }) := by
  unfold ElementsHelper.getElementMiss
  rw [hid]

theorem getElement_eq_of_none (d : Dom) (h : ElementsHelper) (p : String)
    (hget : mapGet h.cache p = none) :
    ElementsHelper.getElement d h (.str p) = ElementsHelper.getElementMiss d h p := by
  simp only [ElementsHelper.getElement]
  rw [hget]

theorem getElement_eq_of_some_none (d : Dom) (h : ElementsHelper) (p : String)
    (hget : mapGet h.cache p = some none) :
    ElementsHelper.getElement d h (.str p) =
      ElementsHelper.getElementMiss d { h with cache := mapDelete h.cache p } p := by
  simp only [ElementsHelper.getElement]
  rw [hget]

theorem getElement_eq_of_some_some (d : Dom) (h : ElementsHelper) (p : String) (e0 : Elem)
    (hget : mapGet h.cache p = some (some e0)) :
    ElementsHelper.getElement d h (.str p) =
      if (e0.isElementNode && d.containsElem e0) = true then
        (some e0, { h with hits := h.hits + 1 })
      else ElementsHelper.getElementMiss d { h with cache := mapDelete h.cache p } p := by
  simp only [ElementsHelper.getElement]
  rw [hget]

/-- The pure hit path of _getElement. -/
theorem getElement_hit (d : Dom) (h1 : ElementsHelper) (p : String) (e : Elem)
    (hget : mapGet h1.cache p = some (some e))
    (hel : e.isElementNode = true) (hcont : d.containsElem e = true) :
    ElementsHelper.getElement d h1 (.str p) = (some e, { h1 with hits := h1.hits + 1 }) := by
  rw [getElement_eq_of_some_some d h1 p e hget]
  rw [if_pos (by rw [hel, hcont]; rfl)]

theorem getElement_eq_of_invalid (d : Dom) (h : ElementsHelper) (p : String) (e0 : Elem)
    (hget : mapGet h.cache p = some (some e0))
    (hchk : (e0.isElementNode && d.containsElem e0) = false) :
    ElementsHelper.getElement d h (.str p) =
      ElementsHelper.getElementMiss d { h with cache := mapDelete h.cache p } p := by
  rw [getElement_eq_of_some_some d h p e0 hget]
  rw [if_neg (by rw [hchk]; exact Bool.false_ne_true)]

/-- After a successful first lookup, the cache holds the returned element
under the discriminator and that element passes the hit-path revalidation. -/
theorem getElement_first_success (d : Dom) (h : ElementsHelper) (p : String) (e : Elem)
    (hwf : d.WF) (hfirst : (ElementsHelper.getElement d h (.str p)).1 = some e) :
    mapGet (ElementsHelper.getElement d h (.str p)).2.cache p = some (some e) ∧
    e.isElementNode = true ∧ d.containsElem e = true := by
  have hmiss : ∀ h' : ElementsHelper,
      (ElementsHelper.getElementMiss d h' p).1 = some e →
      mapGet (ElementsHelper.getElementMiss d h' p).2.cache p = some (some e) ∧
      e.isElementNode = true ∧ d.containsElem e = true := by
    intro h' hres
    cases hid : d.getElementById p with
    | none =>
        rw [getElementMiss_notfound d h' p hid] at hres
        simp at hres
    | some e1 =>
        rw [getElementMiss_found d h' p e1 hid] at hres
        have he1 : e1 = e := by simpa using hres
        subst he1
        have hmem := getElementById_mem hid
        rw [getElementMiss_found d h' p e1 hid]
        refine ⟨?_, hwf e1 hmem, containsElem_of_mem hmem⟩
        simp only [ElementsHelper.addToCache]
        unfold cacheInsertFifo
        exact mapGet_mapSet_self _ p (some e1)
  cases hget : mapGet h.cache p with
  | none =>
      rw [getElement_eq_of_none d h p hget] at hfirst ⊢
      exact hmiss h hfirst
  | some cv =>
      cases cv with
      | none =>
          rw [getElement_eq_of_some_none d h p hget] at hfirst ⊢
          exact hmiss _ hfirst
      | some e0 =>
          by_cases hchk : (e0.isElementNode && d.containsElem e0) = true
          · rcases Bool.and_eq_true_iff.mp hchk with ⟨h1, h2⟩
            rw [getElement_hit d h p e0 hget h1 h2] at hfirst ⊢
            have he0 : e0 = e := by simpa using hfirst
            subst he0
            exact ⟨hget, h1, h2⟩
          · rw [getElement_eq_of_invalid d h p e0 hget
              (Bool.not_eq_true _ ▸ hchk)] at hfirst ⊢
            exact hmiss _ hfirst

theorem getCollection_eq_of_none (d : Dom) (h : CollectionsHelper) (ty : CollType)
    (v : String) (hget : mapGet h.cache (createCacheKey ty.str v) = none) :
    CollectionsHelper.getCollection d h ty (.str v) =
      CollectionsHelper.getCollectionMiss d h ty v := by
  simp only [CollectionsHelper.getCollection]
  rw [hget]

theorem getCollection_eq_of_some (d : Dom) (h : CollectionsHelper) (ty : CollType)
    (v : String) (cv : Option CollValue)
    (hget : mapGet h.cache (createCacheKey ty.str v) = some cv) :
    CollectionsHelper.getCollection d h ty (.str v) =
      if isValidCollection d cv = true then
        (cv.getD (emptyCollValue 0), { h with hits := h.hits + 1 })
      else
        CollectionsHelper.getCollectionMiss d
          { h with cache := mapDelete h.cache (createCacheKey ty.str v) } ty v := by
  simp only [CollectionsHelper.getCollection]
  rw [hget]

theorem getCollection_eq_of_invalid (d : Dom) (h : CollectionsHelper) (ty : CollType)
    (v : String) (cv : Option CollValue)
    (hget : mapGet h.cache (createCacheKey ty.str v) = some cv)
    (hval : isValidCollection d cv = false) :
    CollectionsHelper.getCollection d h ty (.str v) =
      CollectionsHelper.getCollectionMiss d
        { h with cache := mapDelete h.cache (createCacheKey ty.str v) } ty v := by
  rw [getCollection_eq_of_some d h ty v cv hget]
  rw [if_neg (by rw [hval]; exact Bool.false_ne_true)]

/-- The pure hit path of _getCollection. -/
theorem getCollection_hit (d : Dom) (h1 : CollectionsHelper) (ty : CollType) (v : String)
    (c : CollValue)
    (hget : mapGet h1.cache (createCacheKey ty.str v) = some (some c))
    (hval : isValidCollection d (some c) = true) :
    CollectionsHelper.getCollection d h1 ty (.str v) =
      (c, { h1 with hits := h1.hits + 1 }) := by
  rw [getCollection_eq_of_some d h1 ty v (some c) hget]
  rw [if_pos hval]
  rfl

/-- After the first _getCollection call, the cache holds the returned wrapper
under the composite key and that wrapper passes _isValidCollection. -/
theorem getCollection_first (d : Dom) (h : CollectionsHelper) (ty : CollType) (v : String)
    (hwf : d.WF) :
    mapGet (CollectionsHelper.getCollection d h ty (.str v)).2.cache
        (createCacheKey ty.str v) =
      some (some (CollectionsHelper.getCollection d h ty (.str v)).1) ∧
    isValidCollection d (some (CollectionsHelper.getCollection d h ty (.str v)).1) = true := by
  have hmembers : ∀ e ∈ domCollection d ty v, e ∈ d.attachedElems := by
    intro e he
    cases ty <;> exact List.mem_of_mem_filter he
  have hmiss : ∀ h' : CollectionsHelper,
      mapGet (CollectionsHelper.getCollectionMiss d h' ty v).2.cache
          (createCacheKey ty.str v) =
        some (some (CollectionsHelper.getCollectionMiss d h' ty v).1) ∧
      isValidCollection d (some (CollectionsHelper.getCollectionMiss d h' ty v).1) = true := by
    intro h'
    unfold CollectionsHelper.getCollectionMiss
    constructor
    · simp only [CollectionsHelper.addToCache]
      unfold cacheInsertFifo
      exact mapGet_mapSet_self _ _ _
    · simp only [isValidCollection]
      cases hm : domCollection d ty v with
      | nil => simp [hm]
      | cons e rest =>
          have hmem : e ∈ d.attachedElems := hmembers e (by rw [hm]; simp)
          simp [hm, hwf e hmem, containsElem_of_mem hmem]
  cases hget : mapGet h.cache (createCacheKey ty.str v) with
  | none =>
      rw [getCollection_eq_of_none d h ty v hget]
      exact hmiss h
  | some cv =>
      by_cases hval : isValidCollection d cv = true
      · cases cv with
        | none => simp [isValidCollection] at hval
        | some c =>
            rw [getCollection_hit d h ty v c hget hval]
            exact ⟨hget, hval⟩
      · rw [getCollection_eq_of_invalid d h ty v cv hget (Bool.not_eq_true _ ▸ hval)]
        exact hmiss _

/-- C7: with no intervening DOM mutation, a repeated lookup of the same
discriminator returns the reference-equal element (single kind) and the very
same cached wrapper over the same underlying live collection (multiple kind);
the second call only bumps the hit counter - in particular it is served from
the cache and the miss counter is untouched. -/
theorem claim_C7_second_lookup_is_cache_hit
    (d : Dom) (h : ElementsHelper) (hcol : CollectionsHelper)
    (p : String) (e : Elem) (ty : CollType) (v : String)
    (hwf : d.WF)
    (hfirst : (ElementsHelper.getElement d h (.str p)).1 = some e) :
    (ElementsHelper.getElement d (ElementsHelper.getElement d h (.str p)).2 (.str p) =
      (some e,
        { (ElementsHelper.getElement d h (.str p)).2 with
            hits := (ElementsHelper.getElement d h (.str p)).2.hits + 1 })) ∧
    (CollectionsHelper.getCollection d
        (CollectionsHelper.getCollection d hcol ty (.str v)).2 ty (.str v) =
      ((CollectionsHelper.getCollection d hcol ty (.str v)).1,
        { (CollectionsHelper.getCollection d hcol ty (.str v)).2 with
            hits := (CollectionsHelper.getCollection d hcol ty (.str v)).2.hits + 1 })) := by
  constructor
  · obtain ⟨hget, hel, hcont⟩ := getElement_first_success d h p e hwf hfirst
    exact getElement_hit d _ p e hget hel hcont
  · obtain ⟨hget, hval⟩ := getCollection_first d hcol ty v hwf
    exact getCollection_hit d _ ty v _ hget hval

/-- Witness for C7: looking up id a twice in a three-element document, and
the className collection for card twice. -/
theorem claim_C7_second_lookup_is_cache_hit_witness :
    (ElementsHelper.getElement sampleDomABC
        (ElementsHelper.getElement sampleDomABC (ElementsHelper.init (sampleOpts 10))
          (.str "a")).2 (.str "a") =
      (some (sampleElem 1 "a"),
        { (ElementsHelper.getElement sampleDomABC (ElementsHelper.init (sampleOpts 10))
            (.str "a")).2 with
            hits := (ElementsHelper.getElement sampleDomABC
              (ElementsHelper.init (sampleOpts 10)) (.str "a")).2.hits + 1 })) ∧
    (CollectionsHelper.getCollection sampleDomABC
        (CollectionsHelper.getCollection sampleDomABC
          (CollectionsHelper.init (sampleOpts 10)) .className (.str "card")).2
        .className (.str "card") =
      ((CollectionsHelper.getCollection sampleDomABC
          (CollectionsHelper.init (sampleOpts 10)) .className (.str "card")).1,
        { (CollectionsHelper.getCollection sampleDomABC
            (CollectionsHelper.init (sampleOpts 10)) .className (.str "card")).2 with
            hits := (CollectionsHelper.getCollection sampleDomABC
              (CollectionsHelper.init (sampleOpts 10)) .className
              (.str "card")).2.hits + 1 })) :=
  claim_C7_second_lookup_is_cache_hit sampleDomABC (ElementsHelper.init (sampleOpts 10))
    (CollectionsHelper.init (sampleOpts 10)) "a" (sampleElem 1 "a") .className "card"
    (by decide) (by decide)

/-! ## Claim C5 -/

theorem cacheInsertFifo_nil_length {V : Type} (N : Nat) (k : String) (v : V) :
    (cacheInsertFifo ([] : List (String × V)) N k v).length = 1 := by
  unfold cacheInsertFifo
  by_cases hN : N ≤ ([] : List (String × V)).length
  · rw [if_pos hN]
    rfl
  · rw [if_neg hN]
    rfl

theorem destroy_state (h : ElementsHelper) :
    h.destroy.cache = [] ∧ h.destroy.isDestroyed = true ∧
    h.destroy.observerConnected = false ∧ h.destroy.timerActive = false ∧
    h.destroy.cacheSize = h.cacheSize ∧ h.destroy.opts = h.opts := by
  unfold ElementsHelper.destroy ElementsHelper.emitLog
  by_cases hl : h.opts.enableLogging <;> simp [hl]

/-- C5 counterexample: with element a present, one cached lookup followed by
destroy() leaves getStats().cacheSize at 1, not 0, and a further lookup
(which succeeds and does not throw) re-populates the cache, keeping
cacheSize at 1 - the claim asserts it remains 0 and never grows again. -/
theorem claim_C5_counterexample :
    (ElementsHelper.destroy
        (ElementsHelper.getElement sampleDomABC (ElementsHelper.init (sampleOpts 1000))
          (.str "a")).2).cacheSize = 1 ∧
    (ElementsHelper.getElement sampleDomABC
        (ElementsHelper.destroy
          (ElementsHelper.getElement sampleDomABC (ElementsHelper.init (sampleOpts 1000))
            (.str "a")).2) (.str "a")).1 = some (sampleElem 1 "a") ∧
    (ElementsHelper.getElement sampleDomABC
        (ElementsHelper.destroy
          (ElementsHelper.getElement sampleDomABC (ElementsHelper.init (sampleOpts 1000))
            (.str "a")).2) (.str "a")).2.cacheSize = 1 := by
  decide

/-- C5 (amended): destroy() marks the helper destroyed, disconnects the
observer, cancels the cleanup timer and clears the cache; a subsequent
lookup of an existing discriminator still returns the correct element
without throwing, and the periodic cleanup is inert on a destroyed helper;
but destroy does not reset the reported cacheSize statistic and a
post-destroy lookup miss still inserts into the cache, so cacheSize
becomes 1 again rather than remaining 0. -/
theorem claim_C5_destroy_uncached_passthrough_amended
    (d : Dom) (h : ElementsHelper) (p : String) (e : Elem)
    (he : d.getElementById p = some e) :
    (h.destroy.cache = [] ∧ h.destroy.isDestroyed = true ∧
     h.destroy.observerConnected = false ∧ h.destroy.timerActive = false ∧
     h.destroy.cacheSize = h.cacheSize) ∧
    (ElementsHelper.getElement d h.destroy (.str p)).1 = some e ∧
    (ElementsHelper.getElement d h.destroy (.str p)).2.cacheSize = 1 ∧
    ElementsHelper.performCleanup d 0 h.destroy = h.destroy := by
  obtain ⟨hc0, hd1, hob, htm, hcs, _⟩ := destroy_state h
  refine ⟨⟨hc0, hd1, hob, htm, hcs⟩, ?_, ?_, ?_⟩
  · rw [getElement_eq_of_none d h.destroy p (by rw [hc0]; rfl)]
    rw [getElementMiss_found d h.destroy p e he]
  · rw [getElement_eq_of_none d h.destroy p (by rw [hc0]; rfl)]
    rw [getElementMiss_found d h.destroy p e he]
    show (ElementsHelper.addToCache h.destroy p e).cacheSize = 1
    simp only [ElementsHelper.addToCache]
    rw [hc0]
    exact cacheInsertFifo_nil_length _ p (some e)
  · unfold ElementsHelper.performCleanup
    rw [if_pos hd1]

/-- Witness for the amended C5. -/
theorem claim_C5_destroy_uncached_passthrough_amended_witness :
    ((ElementsHelper.init (sampleOpts 1000)).destroy.cache = [] ∧
     (ElementsHelper.init (sampleOpts 1000)).destroy.isDestroyed = true ∧
     (ElementsHelper.init (sampleOpts 1000)).destroy.observerConnected = false ∧
     (ElementsHelper.init (sampleOpts 1000)).destroy.timerActive = false ∧
     (ElementsHelper.init (sampleOpts 1000)).destroy.cacheSize =
       (ElementsHelper.init (sampleOpts 1000)).cacheSize) ∧
    (ElementsHelper.getElement sampleDomABC (ElementsHelper.init (sampleOpts 1000)).destroy
      (.str "b")).1 = some (sampleElem 2 "b") ∧
    (ElementsHelper.getElement sampleDomABC (ElementsHelper.init (sampleOpts 1000)).destroy
      (.str "b")).2.cacheSize = 1 ∧
    ElementsHelper.performCleanup sampleDomABC 0
        (ElementsHelper.init (sampleOpts 1000)).destroy =
      (ElementsHelper.init (sampleOpts 1000)).destroy :=
  claim_C5_destroy_uncached_passthrough_amended sampleDomABC
    (ElementsHelper.init (sampleOpts 1000)) "b" (sampleElem 2 "b") (by decide)

/-! ## Claim C6 -/

theorem getQuery_eq_of_none (d : Dom) (h : SelectorHelper) (single : Bool) (s : String)
    (hget : mapGet h.cache (selCacheKey single s) = none) :
    SelectorHelper.getQuery d h single (.str s) = SelectorHelper.getQueryMiss d h single s := by
  simp only [SelectorHelper.getQuery]
  rw [hget]

theorem getQueryMiss_throws (d : Dom) (h : SelectorHelper) (single : Bool) (s : String)
    (hbad : d.selectorThrows s = true) :
    SelectorHelper.getQueryMiss d h single s =
      (if single then (.single none, h.warn)
       else (.multi (some (emptyNodeListValue h.warn.nextWid)),
         { h.warn with nextWid := h.warn.nextWid + 1 })) := by
  unfold SelectorHelper.getQueryMiss
  rw [if_pos hbad]

/-- C6: a non-string discriminator degrades to null (elements, selector
single) or an empty Collection (collections, selector multiple) with a
warning, and a selector string on which the DOM query throws a SyntaxError is
caught inside _getQuery and likewise degrades, warned and uncached, with no
exception reaching the caller (all the modelled lookups are total
functions). -/
theorem claim_C6_invalid_input_degrades
    (d : Dom) (he : ElementsHelper) (hc : CollectionsHelper) (hs : SelectorHelper)
    (ty : CollType) (s : String)
    (hbad : d.selectorThrows s = true)
    (hnc1 : mapGet hs.cache (selCacheKey true s) = none)
    (hnc2 : mapGet hs.cache (selCacheKey false s) = none) :
    ElementsHelper.getElement d he .nonstr = (none, he.warn) ∧
    ((CollectionsHelper.getCollection d hc ty .nonstr).1.members = [] ∧
     (CollectionsHelper.getCollection d hc ty .nonstr).2.warnCalls = hc.warnCalls + 1) ∧
    ((SelectorHelper.getQuery d hs true .nonstr).1 = .single none ∧
     (SelectorHelper.getQuery d hs true .nonstr).2.warnCalls = hs.warnCalls + 1) ∧
    ((SelectorHelper.getQuery d hs false .nonstr).1 =
        .multi (some (emptyNodeListValue hs.nextWid)) ∧
     (SelectorHelper.getQuery d hs false .nonstr).2.warnCalls = hs.warnCalls + 1) ∧
    (SelectorHelper.getQuery d hs true (.str s) = (.single none, hs.warn)) ∧
    ((SelectorHelper.getQuery d hs false (.str s)).1 =
        .multi (some (emptyNodeListValue hs.nextWid)) ∧
     (SelectorHelper.getQuery d hs false (.str s)).2.cache = hs.cache ∧
     (SelectorHelper.getQuery d hs false (.str s)).2.warnCalls = hs.warnCalls + 1 ∧
     (SelectorHelper.getQuery d hs false (.str s)).2.misses = hs.misses) := by
  refine ⟨rfl, ⟨rfl, rfl⟩, ⟨rfl, rfl⟩, ⟨rfl, rfl⟩, ?_, ?_⟩
  · rw [getQuery_eq_of_none d hs true s hnc1, getQueryMiss_throws d hs true s hbad]
    rfl
  · rw [getQuery_eq_of_none d hs false s hnc2, getQueryMiss_throws d hs false s hbad]
    exact ⟨rfl, rfl, rfl, rfl⟩

/-- Witness for C6 with a concrete malformed selector. -/
theorem claim_C6_invalid_input_degrades_witness :
    ElementsHelper.getElement sampleDomBad (ElementsHelper.init (sampleOpts 10)) .nonstr =
      (none, (ElementsHelper.init (sampleOpts 10)).warn) ∧
    ((CollectionsHelper.getCollection sampleDomBad (CollectionsHelper.init (sampleOpts 10))
        .className .nonstr).1.members = [] ∧
     (CollectionsHelper.getCollection sampleDomBad (CollectionsHelper.init (sampleOpts 10))
        .className .nonstr).2.warnCalls =
       (CollectionsHelper.init (sampleOpts 10)).warnCalls + 1) ∧
    ((SelectorHelper.getQuery sampleDomBad (SelectorHelper.init (sampleOpts 10)) true
        .nonstr).1 = .single none ∧
     (SelectorHelper.getQuery sampleDomBad (SelectorHelper.init (sampleOpts 10)) true
        .nonstr).2.warnCalls = (SelectorHelper.init (sampleOpts 10)).warnCalls + 1) ∧
    ((SelectorHelper.getQuery sampleDomBad (SelectorHelper.init (sampleOpts 10)) false
        .nonstr).1 =
        .multi (some (emptyNodeListValue (SelectorHelper.init (sampleOpts 10)).nextWid)) ∧
     (SelectorHelper.getQuery sampleDomBad (SelectorHelper.init (sampleOpts 10)) false
        .nonstr).2.warnCalls = (SelectorHelper.init (sampleOpts 10)).warnCalls + 1) ∧
    (SelectorHelper.getQuery sampleDomBad (SelectorHelper.init (sampleOpts 10)) true
        (.str "##bad[") =
      (.single none, (SelectorHelper.init (sampleOpts 10)).warn)) ∧
    ((SelectorHelper.getQuery sampleDomBad (SelectorHelper.init (sampleOpts 10)) false
        (.str "##bad[")).1 =
        .multi (some (emptyNodeListValue (SelectorHelper.init (sampleOpts 10)).nextWid)) ∧
     (SelectorHelper.getQuery sampleDomBad (SelectorHelper.init (sampleOpts 10)) false
        (.str "##bad[")).2.cache = (SelectorHelper.init (sampleOpts 10)).cache ∧
     (SelectorHelper.getQuery sampleDomBad (SelectorHelper.init (sampleOpts 10)) false
        (.str "##bad[")).2.warnCalls =
       (SelectorHelper.init (sampleOpts 10)).warnCalls + 1 ∧
     (SelectorHelper.getQuery sampleDomBad (SelectorHelper.init (sampleOpts 10)) false
        (.str "##bad[")).2.misses = (SelectorHelper.init (sampleOpts 10)).misses) :=
  claim_C6_invalid_input_degrades sampleDomBad (ElementsHelper.init (sampleOpts 10))
    (CollectionsHelper.init (sampleOpts 10)) (SelectorHelper.init (sampleOpts 10))
    .className "##bad[" (by decide) (by decide) (by decide)

/-! ## Claim C9 -/

/-- C9 is a code bug in the selector helper fallback: the guard reads
_hasEnhancedUpdateMethod but the fallback marks _hasUpdateMethod, so looking
an element up twice through two cache misses installs the update method
twice; the elements-helper fallback, whose guard and mark agree, installs it
exactly once over the same two calls. -/
theorem claim_C9_selector_enhance_redefines :
    (selectorEnhance (selectorEnhance freshEnhState)).defineCount = 2 ∧
    (selectorEnhance freshEnhState).hasEnhancedUpdateMethod = false ∧
    (selectorEnhance freshEnhState).hasUpdateMethod = true ∧
    (elementsEnhance (elementsEnhance freshEnhState)).defineCount = 1 := by
  decide

/-! ## Claim C4 -/

theorem not_mem_of_not_contains {α : Type} [BEq α] [LawfulBEq α] {l : List α} {a : α}
    (h : (!l.contains a) = true) : a ∉ l := by
  intro hm
  rw [Bool.not_eq_true'] at h
  rw [List.contains_eq_any_beq] at h
  rw [List.any_eq_false] at h
  exact absurd (by simp : (a == a) = true) (h a hm)

theorem cleanup_survivor_not_stale {V : Type} (stale : String → V → Bool)
    {c : List (String × V)} {p : String × V}
    (hm : p ∈ ((c.filter (fun q => stale q.1 q.2)).map Prod.fst).foldl
      (fun c k => mapDelete c k) c) :
    p ∈ c ∧ stale p.1 p.2 = false := by
  rw [foldl_mapDelete_eq_filter] at hm
  have hp := List.mem_filter.mp hm
  refine ⟨hp.1, ?_⟩
  cases hx : stale p.1 p.2
  · rfl
  · exfalso
    have hmem : p.1 ∈ (c.filter (fun q => stale q.1 q.2)).map Prod.fst :=
      List.mem_map.mpr ⟨p, List.mem_filter.mpr ⟨hp.1, hx⟩, rfl⟩
    exact not_mem_of_not_contains hp.2 hmem

theorem cleanup_deleted_of_stale {V : Type} (stale : String → V → Bool)
    {c : List (String × V)} {q : String × V}
    (hq : q ∈ c) (hst : stale q.1 q.2 = true) :
    q ∉ ((c.filter (fun r => stale r.1 r.2)).map Prod.fst).foldl
      (fun c k => mapDelete c k) c := by
  rw [foldl_mapDelete_eq_filter]
  intro hmem
  have hp := List.mem_filter.mp hmem
  have hmem1 : q.1 ∈ (c.filter (fun r => stale r.1 r.2)).map Prod.fst :=
    List.mem_map.mpr ⟨q, List.mem_filter.mpr ⟨hq, hst⟩, rfl⟩
  exact not_mem_of_not_contains hp.2 hmem1

theorem performCleanup_elements_parts (d : Dom) (now : Nat) (he : ElementsHelper)
    (hde : he.isDestroyed = false) :
    (ElementsHelper.performCleanup d now he).cache =
      ((he.cache.filter (fun p => elemEntryStale d p.1 p.2)).map Prod.fst).foldl
        (fun c k => mapDelete c k) he.cache ∧
    (ElementsHelper.performCleanup d now he).lastCleanup = now := by
  unfold ElementsHelper.performCleanup
  rw [if_neg (by rw [hde]; exact Bool.false_ne_true)]
  dsimp only
  constructor
  · split <;> rfl
  · split <;> rfl

theorem performCleanup_collections_parts (d : Dom) (now : Nat) (hc : CollectionsHelper)
    (hdc : hc.isDestroyed = false) :
    (CollectionsHelper.performCleanup d now hc).cache =
      ((hc.cache.filter (fun p => !isValidCollection d p.2)).map Prod.fst).foldl
        (fun c k => mapDelete c k) hc.cache ∧
    (CollectionsHelper.performCleanup d now hc).lastCleanup = now := by
  unfold CollectionsHelper.performCleanup
  rw [if_neg (by rw [hdc]; exact Bool.false_ne_true)]
  dsimp only
  constructor
  · split <;> rfl
  · split <;> rfl

theorem performCleanup_selector_parts (d : Dom) (now : Nat) (hs : SelectorHelper)
    (hds : hs.isDestroyed = false) :
    (SelectorHelper.performCleanup d now hs).cache =
      ((hs.cache.filter (fun p => !isValidQuery d p.2 (keyTypeSeg p.1 == "single"))).map
          Prod.fst).foldl (fun c k => mapDelete c k) hs.cache ∧
    (SelectorHelper.performCleanup d now hs).lastCleanup = now := by
  unfold SelectorHelper.performCleanup
  rw [if_neg (by rw [hds]; exact Bool.false_ne_true)]
  dsimp only
  constructor
  · split <;> rfl
  · split <;> rfl

theorem elemEntryStale_false_spec {d : Dom} {k : String} {v : Option Elem}
    (h : elemEntryStale d k v = false) : specValidSingleElem d v = true := by
  cases v with
  | none => simp [elemEntryStale] at h
  | some e =>
      simp only [elemEntryStale] at h
      simp only [specValidSingleElem]
      cases h1 : e.isElementNode <;> cases h2 : d.containsElem e <;> simp_all

theorem elemEntryStale_of_spec_false {d : Dom} {k : String} {v : Option Elem}
    (h : specValidSingleElem d v = false) : elemEntryStale d k v = true := by
  cases hx : elemEntryStale d k v
  · rw [elemEntryStale_false_spec hx] at h
    exact absurd h (by simp)
  · rfl

theorem isValidCollection_spec {d : Dom} {v : Option CollValue}
    (h : isValidCollection d v = true) : specValidCollection d v = true := by
  cases v with
  | none => simp [isValidCollection] at h
  | some c =>
      simp only [isValidCollection] at h
      simp only [specValidCollection]
      cases hm : c.members with
      | nil => cases ho : c.hasOriginal <;> simp_all
      | cons e t =>
          cases ho : c.hasOriginal <;> cases h1 : e.isElementNode <;> simp_all

theorem isValidCollection_of_spec_false {d : Dom} {v : Option CollValue}
    (h : specValidCollection d v = false) : isValidCollection d v = false := by
  cases hx : isValidCollection d v
  · rfl
  · rw [isValidCollection_spec hx] at h
    exact absurd h (by simp)

theorem isValidQuery_spec {d : Dom} {p : SelPayload} {b : Bool}
    (h : isValidQuery d p b = true) : specValidSelPayload d p = true := by
  cases b with
  | true =>
      cases p with
      | single v =>
          cases v with
          | none => simp [isValidQuery] at h
          | some e =>
              simp only [isValidQuery] at h
              simpa [specValidSelPayload, specValidSingleElem] using h
      | multi v => simp [isValidQuery] at h
  | false =>
      cases p with
      | single v => simp [isValidQuery] at h
      | multi v =>
          cases v with
          | none => simp [isValidQuery] at h
          | some nl =>
              simp only [isValidQuery] at h
              simp only [specValidSelPayload]
              cases hm : nl.members with
              | nil => cases ho : nl.hasOriginal <;> simp_all
              | cons e t => cases ho : nl.hasOriginal <;> simp_all

theorem isValidQuery_of_spec_false {d : Dom} {p : SelPayload} {b : Bool}
    (h : specValidSelPayload d p = false) : isValidQuery d p b = false := by
  cases hx : isValidQuery d p b
  · rfl
  · rw [isValidQuery_spec hx] at h
    exact absurd h (by simp)

def sampleCleanupElements : ElementsHelper :=
  { ElementsHelper.init (sampleOpts 1000) with
      cache := [("a", some (sampleElem 1 "a")), ("gone", some (sampleElem 9 "gone"))] }

def sampleCleanupCollections : CollectionsHelper :=
  { CollectionsHelper.init (sampleOpts 1000) with
      cache := [("className:x", some { hasOriginal := true, members := [], wid := 0 }),
                ("className:y", some { hasOriginal := false, members := [], wid := 1 })] }

def sampleCleanupSelector : SelectorHelper :=
  { SelectorHelper.init (sampleOpts 1000) with
      cache := [("single:#a", .single (some (sampleElem 1 "a"))),
                ("single:#z", .single none)] }

/-- C4: after a (non-destroyed) reaper pass, every surviving cache entry
passes the Validity Checker as the spec words it - single-element entries
hold an attached element node, collection entries wrap a non-null live
collection that is empty or has its first member attached - every entry
failing that check has been deleted, and the last-cleanup timestamp is
updated; stated for all three helper kinds. -/
theorem claim_C4_reaper_postcondition
    (d : Dom) (now : Nat) (he : ElementsHelper) (hc : CollectionsHelper)
    (hs : SelectorHelper)
    (pe qe : String × Option Elem) (pc qc : String × Option CollValue)
    (ps qs : String × SelPayload)
    (hde : he.isDestroyed = false) (hdc : hc.isDestroyed = false)
    (hds : hs.isDestroyed = false)
    (hpe : pe ∈ (ElementsHelper.performCleanup d now he).cache)
    (hqe : qe ∈ he.cache) (hqebad : specValidSingleElem d qe.2 = false)
    (hpc : pc ∈ (CollectionsHelper.performCleanup d now hc).cache)
    (hqc : qc ∈ hc.cache) (hqcbad : specValidCollection d qc.2 = false)
    (hps : ps ∈ (SelectorHelper.performCleanup d now hs).cache)
    (hqs : qs ∈ hs.cache) (hqsbad : specValidSelPayload d qs.2 = false) :
    specValidSingleElem d pe.2 = true ∧
    qe ∉ (ElementsHelper.performCleanup d now he).cache ∧
    (ElementsHelper.performCleanup d now he).lastCleanup = now ∧
    specValidCollection d pc.2 = true ∧
    qc ∉ (CollectionsHelper.performCleanup d now hc).cache ∧
    (CollectionsHelper.performCleanup d now hc).lastCleanup = now ∧
    specValidSelPayload d ps.2 = true ∧
    qs ∉ (SelectorHelper.performCleanup d now hs).cache ∧
    (SelectorHelper.performCleanup d now hs).lastCleanup = now := by
  obtain ⟨hce, hte⟩ := performCleanup_elements_parts d now he hde
  obtain ⟨hcc, htc⟩ := performCleanup_collections_parts d now hc hdc
  obtain ⟨hcs, hts⟩ := performCleanup_selector_parts d now hs hds
  refine ⟨?_, ?_, hte, ?_, ?_, htc, ?_, ?_, hts⟩
  · rw [hce] at hpe
    exact elemEntryStale_false_spec
      (cleanup_survivor_not_stale (fun k v => elemEntryStale d k v) hpe).2
  · rw [hce]
    exact cleanup_deleted_of_stale (fun k v => elemEntryStale d k v) hqe
      (elemEntryStale_of_spec_false hqebad)
  · rw [hcc] at hpc
    have := (cleanup_survivor_not_stale (fun _ v => !isValidCollection d v) hpc).2
    have hv : isValidCollection d pc.2 = true := by
      cases hx : isValidCollection d pc.2
      · rw [hx] at this
        exact absurd this (by simp)
      · rfl
    exact isValidCollection_spec hv
  · rw [hcc]
    apply cleanup_deleted_of_stale (fun _ v => !isValidCollection d v) hqc
    rw [isValidCollection_of_spec_false hqcbad]
    rfl
  · rw [hcs] at hps
    have := (cleanup_survivor_not_stale
      (fun k v => !isValidQuery d v (keyTypeSeg k == "single")) hps).2
    have hv : isValidQuery d ps.2 (keyTypeSeg ps.1 == "single") = true := by
      cases hx : isValidQuery d ps.2 (keyTypeSeg ps.1 == "single")
      · rw [hx] at this
        exact absurd this (by simp)
      · rfl
    exact isValidQuery_spec hv
  · rw [hcs]
    apply cleanup_deleted_of_stale
      (fun k v => !isValidQuery d v (keyTypeSeg k == "single")) hqs
    rw [isValidQuery_of_spec_false hqsbad]
    rfl

/-- Witness for C4: each helper holds one valid and one invalid entry; the
valid one survives the pass, the invalid one is reaped. -/
theorem claim_C4_reaper_postcondition_witness :
    specValidSingleElem sampleDomABC (some (sampleElem 1 "a")) = true ∧
    ("gone", some (sampleElem 9 "gone")) ∉
      (ElementsHelper.performCleanup sampleDomABC 7 sampleCleanupElements).cache ∧
    (ElementsHelper.performCleanup sampleDomABC 7 sampleCleanupElements).lastCleanup = 7 ∧
    specValidCollection sampleDomABC
      (some { hasOriginal := true, members := [], wid := 0 }) = true ∧
    ("className:y", some { hasOriginal := false, members := [], wid := 1 }) ∉
      (CollectionsHelper.performCleanup sampleDomABC 7 sampleCleanupCollections).cache ∧
    (CollectionsHelper.performCleanup sampleDomABC 7 sampleCleanupCollections).lastCleanup
      = 7 ∧
    specValidSelPayload sampleDomABC (.single (some (sampleElem 1 "a"))) = true ∧
    ("single:#z", SelPayload.single none) ∉
      (SelectorHelper.performCleanup sampleDomABC 7 sampleCleanupSelector).cache ∧
    (SelectorHelper.performCleanup sampleDomABC 7 sampleCleanupSelector).lastCleanup = 7 :=
  claim_C4_reaper_postcondition sampleDomABC 7 sampleCleanupElements
    sampleCleanupCollections sampleCleanupSelector
    ("a", some (sampleElem 1 "a")) ("gone", some (sampleElem 9 "gone"))
    ("className:x", some { hasOriginal := true, members := [], wid := 0 })
    ("className:y", some { hasOriginal := false, members := [], wid := 1 })
    ("single:#a", .single (some (sampleElem 1 "a"))) ("single:#z", .single none)
    (by decide) (by decide) (by decide) (by decide) (by decide) (by decide)
    (by decide) (by decide) (by decide) (by decide) (by decide) (by decide)

/-! ## Claim C2 -/

theorem contains_eq_decide_mem {α : Type} [BEq α] [LawfulBEq α] (l : List α) (a : α) :
    l.contains a = decide (a ∈ l) := by
  show l.elem a = decide (a ∈ l)
  exact List.elem_eq_mem a l

theorem splitChars_append_sep (p : Char → Bool) (y : Char) (hy : p y = true)
    (ys : List Char) :
    ∀ (xs acc : List Char), (∀ c ∈ xs, p c = false) →
      splitChars p (xs ++ y :: ys) acc =
        String.mk (acc.reverse ++ xs) :: splitChars p ys [] := by
  intro xs
  induction xs with
  | nil =>
      intro acc _
      simp only [List.nil_append, splitChars]
      rw [if_pos hy]
      simp
  | cons x xs ih =>
      intro acc hall
      have hx : p x = false := hall x (by simp)
      simp only [List.cons_append, splitChars]
      rw [if_neg (by rw [hx]; exact Bool.false_ne_true)]
      simp only [List.append_eq]
      rw [ih (x :: acc) (fun c hc => hall c (by simp [hc]))]
      congr 2
      simp

theorem splitOnColon_createCacheKey (t v : String) (ht : ∀ c ∈ t.data, c ≠ ':') :
    splitOnColon (createCacheKey t v) = t :: splitOnColon v := by
  unfold splitOnColon createCacheKey
  have hdata : (t ++ ":" ++ v).data = t.data ++ ':' :: v.data := by
    simp [String.data_append]
  rw [hdata]
  rw [splitChars_append_sep _ ':' (by simp) v.data t.data []
    (fun c hc => by simp [ht c hc])]
  rfl

theorem keyTypeSeg_createCacheKey (t v : String) (ht : ∀ c ∈ t.data, c ≠ ':') :
    keyTypeSeg (createCacheKey t v) = t := by
  unfold keyTypeSeg
  rw [splitOnColon_createCacheKey t v ht]
  rfl

theorem splitChars_ne_nil (p : Char → Bool) (cs : List Char) :
    ∀ acc, splitChars p cs acc ≠ [] := by
  induction cs with
  | nil => intro acc; simp [splitChars]
  | cons c rest ih =>
      intro acc
      simp only [splitChars]
      by_cases hc : p c = true
      · rw [if_pos hc]; simp
      · rw [if_neg hc]; exact ih _

theorem keyValueSeg_createCacheKey (t v : String) (ht : ∀ c ∈ t.data, c ≠ ':') :
    keyValueSeg (createCacheKey t v) = some ((splitOnColon v).headD "") := by
  unfold keyValueSeg
  rw [splitOnColon_createCacheKey t v ht]
  simp only [List.drop_succ_cons, List.drop_zero]
  cases hv : splitOnColon v with
  | nil => exact absurd hv (splitChars_ne_nil _ _ [])
  | cons a as => rfl

theorem processMutations_collections_cache (h : CollectionsHelper)
    (muts : List MutationRec) (hdest : h.isDestroyed = false) :
    (CollectionsHelper.processMutations h muts).cache =
      h.cache.filter (fun p => !collKeyMatched muts p.1) := by
  have hc1 : (CollectionsHelper.processMutations h muts).cache =
      ((keysOf h.cache).filter (fun k => collKeyMatched muts k)).foldl
        (fun c k => mapDelete c k) h.cache := by
    unfold CollectionsHelper.processMutations
    rw [if_neg (by rw [hdest]; exact Bool.false_ne_true)]
    dsimp only
    split <;> rfl
  rw [hc1, foldl_mapDelete_eq_filter]
  apply List.filter_congr
  intro p hp
  have hk : p.1 ∈ keysOf h.cache := mem_keysOf.mpr ⟨p, hp, rfl⟩
  rw [contains_eq_decide_mem]
  by_cases hmem : p.1 ∈ (keysOf h.cache).filter (fun k => collKeyMatched muts k)
  · rw [decide_eq_true hmem]
    rw [(List.mem_filter.mp hmem).2]
  · rw [decide_eq_false hmem]
    have hfalse : collKeyMatched muts p.1 = false := by
      cases hx : collKeyMatched muts p.1
      · rfl
      · exact absurd (List.mem_filter.mpr ⟨hk, hx⟩) hmem
    rw [hfalse]

/-- C2 counterexample: one class-attribute mutation whose removed token is
a:b (a legal, Tailwind-style class name containing a colon).  The token is in
the affected-class set, the cache key is exactly className: followed by that
token, yet the invalidation pass leaves the key in place, because
key.split(char colon, 2) truncates the value component to a. -/
theorem claim_C2_class_invalidation_counterexample :
    ("className:" ++ "a:b" = "className:a:b") ∧
    "a:b" ∈ affectedClasses
      [.attr "class" (some "a:b") (.mk true "" "" "" "SPAN" [])] ∧
    keysOf (CollectionsHelper.processMutations
      { CollectionsHelper.init (sampleOpts 1000) with
          cache := [("className:a:b",
            some { hasOriginal := true, members := [], wid := 0 })] }
      [.attr "class" (some "a:b") (.mk true "" "" "" "SPAN" [])]).cache =
      ["className:a:b"] := by
  decide

/-- C2 (amended): the affected-class set does contain every whitespace token
of both the old and the new class value of a class-attribute record, and the
invalidation pass deletes exactly the keys the collKeyMatched test selects;
for a key built as kind:v this test compares the kinds affected set against
the portion of v before its first colon (the key is parsed with
split(char colon, 2), which truncates), not against v itself - for v without
a colon this is the claimed deletes-iff-v-in-set behaviour. -/
theorem claim_C2_class_token_invalidation_amended
    (h : CollectionsHelper) (muts : List MutationRec)
    (old : Option String) (tgt : DNode) (t : String) (v : String)
    (hdest : h.isDestroyed = false)
    (hrec : MutationRec.attr "class" old tgt ∈ muts)
    (ht : t ∈ wsTokens (old.getD "") ∨ t ∈ wsTokens tgt.className) :
    t ∈ affectedClasses muts ∧
    (CollectionsHelper.processMutations h muts).cache =
      h.cache.filter (fun p => !collKeyMatched muts p.1) ∧
    collKeyMatched muts (createCacheKey "className" v) =
      (affectedClasses muts).contains ((splitOnColon v).headD "") ∧
    collKeyMatched muts (createCacheKey "name" v) =
      (affectedNames muts).contains ((splitOnColon v).headD "") ∧
    collKeyMatched muts (createCacheKey "tagName" v) =
      (affectedTags muts).contains ((splitOnColon v).headD "") := by
  refine ⟨?_, processMutations_collections_cache h muts hdest, ?_, ?_, ?_⟩
  · apply List.mem_flatMap.mpr
    refine ⟨MutationRec.attr "class" old tgt, hrec, ?_⟩
    simp only [recClasses, if_pos rfl]
    rcases ht with h1 | h1
    · exact List.mem_append.mpr (Or.inl h1)
    · exact List.mem_append.mpr (Or.inr h1)
  · unfold collKeyMatched
    rw [keyValueSeg_createCacheKey "className" v (by decide),
      keyTypeSeg_createCacheKey "className" v (by decide)]
    simp
  · unfold collKeyMatched
    rw [keyValueSeg_createCacheKey "name" v (by decide),
      keyTypeSeg_createCacheKey "name" v (by decide)]
    simp
  · unfold collKeyMatched
    rw [keyValueSeg_createCacheKey "tagName" v (by decide),
      keyTypeSeg_createCacheKey "tagName" v (by decide)]
    simp

/-- Witness for the amended C2, with an old class list of two tokens. -/
theorem claim_C2_class_token_invalidation_amended_witness :
    "foo" ∈ affectedClasses
      [.attr "class" (some "foo bar") (.mk true "" "baz" "" "SPAN" [])] ∧
    (CollectionsHelper.processMutations (CollectionsHelper.init (sampleOpts 1000))
        [.attr "class" (some "foo bar") (.mk true "" "baz" "" "SPAN" [])]).cache =
      (CollectionsHelper.init (sampleOpts 1000)).cache.filter
        (fun p => !collKeyMatched
          [.attr "class" (some "foo bar") (.mk true "" "baz" "" "SPAN" [])] p.1) ∧
    collKeyMatched [.attr "class" (some "foo bar") (.mk true "" "baz" "" "SPAN" [])]
        (createCacheKey "className" "foo") =
      (affectedClasses
        [.attr "class" (some "foo bar") (.mk true "" "baz" "" "SPAN" [])]).contains
        ((splitOnColon "foo").headD "") ∧
    collKeyMatched [.attr "class" (some "foo bar") (.mk true "" "baz" "" "SPAN" [])]
        (createCacheKey "name" "foo") =
      (affectedNames
        [.attr "class" (some "foo bar") (.mk true "" "baz" "" "SPAN" [])]).contains
        ((splitOnColon "foo").headD "") ∧
    collKeyMatched [.attr "class" (some "foo bar") (.mk true "" "baz" "" "SPAN" [])]
        (createCacheKey "tagName" "foo") =
      (affectedTags
        [.attr "class" (some "foo bar") (.mk true "" "baz" "" "SPAN" [])]).contains
        ((splitOnColon "foo").headD "") :=
  claim_C2_class_token_invalidation_amended (CollectionsHelper.init (sampleOpts 1000))
    [.attr "class" (some "foo bar") (.mk true "" "baz" "" "SPAN" [])]
    (some "foo bar") (.mk true "" "baz" "" "SPAN" []) "foo" "foo" (by decide)
    (by simp) (by decide)

/-! ## Claim C3 -/

def sampleSelHelperA : SelectorHelper :=
  { SelectorHelper.init (sampleOpts 1000) with
      cache := [("single:#x", SelPayload.single none),
                ("single:div", SelPayload.single none)] }

theorem star_not_mem_attr_frags (a : String) (old : Option String) (tgt : DNode) :
    "*" ∉ recSelFrags (.attr a old tgt) := by
  have hhash : ∀ o : String, ("#" ++ o) ≠ "*" := by
    intro o h
    have hdata := congrArg String.data h
    rw [String.data_append] at hdata
    have h2 : ('#' :: o.data) = ['*'] := by simpa using hdata
    injection h2 with h1 _
    exact absurd h1 (by decide)
  have hdot : ∀ o : String, ("." ++ o) ≠ "*" := by
    intro o h
    have hdata := congrArg String.data h
    rw [String.data_append] at hdata
    have h2 : ('.' :: o.data) = ['*'] := by simpa using hdata
    injection h2 with h1 _
    exact absurd h1 (by decide)
  have hbrk : ∀ o : String, ("[" ++ o ++ "]") ≠ "*" := by
    intro o h
    have hdata := congrArg String.data h
    simp only [String.data_append] at hdata
    have h2 : ('[' :: (o.data ++ [']'])) = ['*'] := by simpa using hdata
    injection h2 with h1 _
    exact absurd h1 (by decide)
  intro hmem
  simp only [recSelFrags, List.mem_append] at hmem
  rcases hmem with (hid | hcls) | hbr
  · by_cases h1 : a = "id"
    · rw [if_pos h1] at hid
      rcases List.mem_append.mp hid with h2 | h2
      · cases old with
        | none => simp at h2
        | some o =>
            dsimp only at h2
            by_cases h3 : (o != "") = true
            · rw [if_pos h3] at h2
              exact hhash o (List.mem_singleton.mp h2).symm
            · rw [if_neg h3] at h2
              simp at h2
      · by_cases h3 : (tgt.idAttr != "") = true
        · rw [if_pos h3] at h2
          exact hhash tgt.idAttr (List.mem_singleton.mp h2).symm
        · rw [if_neg h3] at h2
          simp at h2
    · rw [if_neg h1] at hid
      simp at hid
  · by_cases h1 : a = "class"
    · rw [if_pos h1] at hcls
      rcases List.mem_map.mp hcls with ⟨c, _, hcs⟩
      exact hdot c hcs
    · rw [if_neg h1] at hcls
      simp at hcls
  · exact hbrk a (List.mem_singleton.mp hbr).symm

theorem star_not_mem_affectedSelectors (muts : List MutationRec)
    (hall : ∀ m ∈ muts, m.isChildList = false) :
    "*" ∉ affectedSelectors muts := by
  intro hmem
  rcases List.mem_flatMap.mp hmem with ⟨m, hm, hf⟩
  cases m with
  | childList a r =>
      have := hall _ hm
      simp [MutationRec.isChildList] at this
  | attr a old tgt => exact star_not_mem_attr_frags a old tgt hf

theorem selProcessMutations_clear (h : SelectorHelper) (muts : List MutationRec)
    (hdest : h.isDestroyed = false)
    (hstar : "*" ∈ affectedSelectors muts) :
    SelectorHelper.processMutations h muts = { h with cache := [], cacheSize := 0 } := by
  unfold SelectorHelper.processMutations
  rw [if_neg (by rw [hdest]; exact Bool.false_ne_true)]
  dsimp only
  rw [if_pos (by rw [contains_eq_decide_mem]; exact decide_eq_true hstar)]

theorem selProcessMutations_attr_cache (h : SelectorHelper) (muts : List MutationRec)
    (hdest : h.isDestroyed = false)
    (hnostar : "*" ∉ affectedSelectors muts) :
    (SelectorHelper.processMutations h muts).cache =
      h.cache.filter (fun p => !selKeyMatched muts p.1) := by
  have hc1 : (SelectorHelper.processMutations h muts).cache =
      ((keysOf h.cache).filter (fun k => selKeyMatched muts k)).foldl
        (fun c k => mapDelete c k) h.cache := by
    have hfalse : ¬((affectedSelectors muts).contains "*" = true) := by
      rw [contains_eq_decide_mem, decide_eq_false hnostar]
      exact Bool.false_ne_true
    unfold SelectorHelper.processMutations
    rw [if_neg (by rw [hdest]; exact Bool.false_ne_true)]
    dsimp only
    rw [if_neg hfalse]
  rw [hc1, foldl_mapDelete_eq_filter]
  apply List.filter_congr
  intro p hp
  have hk : p.1 ∈ keysOf h.cache := mem_keysOf.mpr ⟨p, hp, rfl⟩
  rw [contains_eq_decide_mem]
  by_cases hmem : p.1 ∈ (keysOf h.cache).filter (fun k => selKeyMatched muts k)
  · rw [decide_eq_true hmem]
    rw [(List.mem_filter.mp hmem).2]
  · rw [decide_eq_false hmem]
    have hfalse : selKeyMatched muts p.1 = false := by
      cases hx : selKeyMatched muts p.1
      · rfl
      · exact absurd (List.mem_filter.mpr ⟨hk, hx⟩) hmem
    rw [hfalse]

/-- C3 counterexample: an attribute-only batch (a hidden-attribute change)
produces the affected fragment bracket-hidden-bracket; the cached key
single:p:not([hidden]) has a selector component containing that fragment, so
the claim requires it to be deleted, yet the pass keeps it: split(colon, 2)
hands the substring test only the part of the selector before its first
colon, namely p. -/
theorem claim_C3_selector_invalidation_counterexample :
    "[hidden]" ∈ affectedSelectors
      [.attr "hidden" none (.mk true "" "" "" "P" [])] ∧
    strContains "p:not([hidden])" "[hidden]" = true ∧
    keysOf (SelectorHelper.processMutations
      { SelectorHelper.init (sampleOpts 1000) with
          cache := [("single:p:not([hidden])", SelPayload.single none)] }
      [.attr "hidden" none (.mk true "" "" "" "P" [])]).cache =
      ["single:p:not([hidden])"] := by
  decide

/-- C3 (amended): any childList record in a processed batch escalates to the
universal signal and empties the whole selector cache, regardless of which
nodes changed; a batch of attribute-only records deletes exactly the keys
whose selector component, truncated at its first colon by the
split(colon, 2) parse, contains one of the affected fragments (old and new
hash-id, each old and new dot-class token, bracketed attribute name). -/
theorem claim_C3_structural_clear_attr_selective_amended
    (h h2 : SelectorHelper) (mutsA mutsB : List MutationRec) (m0 : MutationRec)
    (hdA : h.isDestroyed = false) (hdB : h2.isDestroyed = false)
    (hm0 : m0 ∈ mutsA) (hm0c : m0.isChildList = true)
    (hattr : ∀ m ∈ mutsB, m.isChildList = false) :
    ((SelectorHelper.processMutations h mutsA).cache = [] ∧
     (SelectorHelper.processMutations h mutsA).cacheSize = 0 ∧
     "*" ∈ affectedSelectors mutsA) ∧
    (SelectorHelper.processMutations h2 mutsB).cache =
      h2.cache.filter (fun p =>
        !(affectedSelectors mutsB).any
          (fun f => strContains (((splitOnColon p.1).drop 1).headD "") f)) := by
  have hstar : "*" ∈ affectedSelectors mutsA := by
    apply List.mem_flatMap.mpr
    refine ⟨m0, hm0, ?_⟩
    cases m0 with
    | childList a r => simp [recSelFrags]
    | attr a old tgt => simp [MutationRec.isChildList] at hm0c
  constructor
  · rw [selProcessMutations_clear h mutsA hdA hstar]
    exact ⟨rfl, rfl, hstar⟩
  · exact selProcessMutations_attr_cache h2 mutsB hdB
      (star_not_mem_affectedSelectors mutsB hattr)

/-- Witness for the amended C3: a childList batch clears a populated cache;
an id-change batch selectively deletes by truncated-component substring
match. -/
theorem claim_C3_structural_clear_attr_selective_amended_witness :
    ((SelectorHelper.processMutations sampleSelHelperA
        [.childList [.mk true "x" "c d" "n" "DIV" []] []]).cache = [] ∧
     (SelectorHelper.processMutations sampleSelHelperA
        [.childList [.mk true "x" "c d" "n" "DIV" []] []]).cacheSize = 0 ∧
     "*" ∈ affectedSelectors [.childList [.mk true "x" "c d" "n" "DIV" []] []]) ∧
    (SelectorHelper.processMutations sampleSelHelperA
        [.attr "id" (some "x") (.mk true "y" "" "" "DIV" [])]).cache =
      sampleSelHelperA.cache.filter (fun p =>
        !(affectedSelectors
            [.attr "id" (some "x") (.mk true "y" "" "" "DIV" [])]).any
          (fun f => strContains (((splitOnColon p.1).drop 1).headD "") f)) :=
  claim_C3_structural_clear_attr_selective_amended sampleSelHelperA sampleSelHelperA
    [.childList [.mk true "x" "c d" "n" "DIV" []] []]
    [.attr "id" (some "x") (.mk true "y" "" "" "DIV" [])]
    (.childList [.mk true "x" "c d" "n" "DIV" []] []) (by decide) (by decide)
    (by simp) (by decide) (by decide)

/-! ## Claim C8 -/

theorem keysOf_mapDelete_subset {V : Type} {c : List (String × V)} {k x : String}
    (hx : x ∈ keysOf (mapDelete c k)) : x ∈ keysOf c := by
  rcases mem_keysOf.mp hx with ⟨p, hp, he⟩
  exact mem_keysOf.mpr ⟨p, List.mem_of_mem_filter hp, he⟩

theorem keysOf_cacheInsertFifo_mem {V : Type} {c : List (String × V)} {N : Nat}
    {k x : String} {v : V}
    (hx : x ∈ keysOf (cacheInsertFifo c N k v)) : x ∈ keysOf c ∨ x = k := by
  simp only [cacheInsertFifo] at hx
  rcases keysOf_mapSet_mem hx with h1 | h1
  · left
    by_cases hfull : N ≤ c.length
    · rw [if_pos hfull] at h1
      cases hh : c.head? with
      | none => rw [hh] at h1; exact h1
      | some p =>
          rw [hh] at h1
          exact keysOf_mapDelete_subset h1
    · rw [if_neg hfull] at h1
      exact h1
  · right
    exact h1

theorem getElement_isSome_of_found (d : Dom) (h : ElementsHelper) (i : String)
    (hf : (d.getElementById i).isSome = true) :
    (ElementsHelper.getElement d h (.str i)).1.isSome = true := by
  obtain ⟨e, he⟩ := Option.isSome_iff_exists.mp hf
  cases hget : mapGet h.cache i with
  | none =>
      rw [getElement_eq_of_none _ _ _ hget, getElementMiss_found _ _ _ _ he]
      rfl
  | some cv =>
      cases cv with
      | none =>
          rw [getElement_eq_of_some_none _ _ _ hget, getElementMiss_found _ _ _ _ he]
          rfl
      | some e0 =>
          by_cases hchk : (e0.isElementNode && d.containsElem e0) = true
          · rw [getElement_hit _ _ _ _ hget (Bool.and_eq_true_iff.mp hchk).1
              (Bool.and_eq_true_iff.mp hchk).2]
            rfl
          · rw [getElement_eq_of_invalid _ _ _ _ hget (Bool.not_eq_true _ ▸ hchk),
              getElementMiss_found _ _ _ _ he]
            rfl

theorem getElementMiss_preserves (d : Dom) (h' : ElementsHelper) (j i : String)
    (hne : i ≠ j) (hnc : i ∉ keysOf h'.cache) :
    i ∉ keysOf (ElementsHelper.getElementMiss d h' j).2.cache := by
  cases hid : d.getElementById j with
  | some e =>
      rw [getElementMiss_found _ _ _ _ hid]
      show i ∉ keysOf (ElementsHelper.addToCache h' j e).cache
      simp only [ElementsHelper.addToCache]
      intro hmem
      rcases keysOf_cacheInsertFifo_mem hmem with h1 | h1
      · exact hnc h1
      · exact hne h1
  | none =>
      rw [getElementMiss_notfound _ _ _ hid]
      cases hl : h'.opts.enableLogging
      · rw [if_neg Bool.false_ne_true]
        exact hnc
      · rw [if_pos rfl]
        exact hnc

theorem getElement_none_unfound (d : Dom) (h : ElementsHelper) (i : String)
    (hnf : d.getElementById i = none) (hnc : i ∉ keysOf h.cache) :
    (ElementsHelper.getElement d h (.str i)).1 = none ∧
    i ∉ keysOf (ElementsHelper.getElement d h (.str i)).2.cache := by
  rw [getElement_eq_of_none _ _ _ (mapGet_eq_none_of_not_mem hnc)]
  rw [getElementMiss_notfound _ _ _ hnf]
  refine ⟨rfl, ?_⟩
  cases hl : h.opts.enableLogging
  · rw [if_neg Bool.false_ne_true]
    exact hnc
  · rw [if_pos rfl]
    exact hnc

theorem getElement_preserves (d : Dom) (h : ElementsHelper) (j i : String)
    (hne : i ≠ j) (hnc : i ∉ keysOf h.cache) :
    i ∉ keysOf (ElementsHelper.getElement d h (.str j)).2.cache := by
  cases hget : mapGet h.cache j with
  | none =>
      rw [getElement_eq_of_none _ _ _ hget]
      exact getElementMiss_preserves d h j i hne hnc
  | some cv =>
      cases cv with
      | none =>
          rw [getElement_eq_of_some_none _ _ _ hget]
          refine getElementMiss_preserves d _ j i hne ?_
          intro hmem
          exact hnc (keysOf_mapDelete_subset hmem)
      | some e0 =>
          by_cases hchk : (e0.isElementNode && d.containsElem e0) = true
          · rw [getElement_hit _ _ _ _ hget (Bool.and_eq_true_iff.mp hchk).1
              (Bool.and_eq_true_iff.mp hchk).2]
            exact hnc
          · rw [getElement_eq_of_invalid _ _ _ _ hget (Bool.not_eq_true _ ▸ hchk)]
            refine getElementMiss_preserves d _ j i hne ?_
            intro hmem
            exact hnc (keysOf_mapDelete_subset hmem)

theorem destructureFold_unfound (d : Dom) (i : String)
    (hnf : d.getElementById i = none) :
    ∀ (ids : List String) (acc : List (String × Option Elem) × ElementsHelper),
      i ∉ keysOf acc.2.cache →
      (∀ pr ∈ acc.1, pr.1 = i → pr.2 = none) →
      (∀ pr ∈ (ids.foldl (destructureStep d) acc).1, pr.1 = i → pr.2 = none) ∧
      i ∉ keysOf (ids.foldl (destructureStep d) acc).2.cache := by
  intro ids
  induction ids with
  | nil =>
      intro acc h1 h2
      exact ⟨h2, h1⟩
  | cons j rest ih =>
      intro acc h1 h2
      rw [List.foldl_cons]
      apply ih
      · by_cases hji : j = i
        · subst hji
          exact (getElement_none_unfound d acc.2 j hnf h1).2
        · exact getElement_preserves d acc.2 j i (fun he => hji he.symm) h1
      · intro pr hpr hpr1
        simp only [destructureStep] at hpr
        rcases List.mem_append.mp hpr with hp | hp
        · exact h2 pr hp hpr1
        · have heq : pr = (j, (ElementsHelper.getElement d acc.2 (.str j)).1) := by
            simpa using hp
          have hji : j = i := by rw [heq] at hpr1; simpa using hpr1
          rw [heq]
          show (ElementsHelper.getElement d acc.2 (.str j)).1 = none
          rw [hji]
          exact (getElement_none_unfound d acc.2 i hnf h1).1

theorem destructure_unfound (d : Dom) (h : ElementsHelper) (ids : List String) (i : String)
    (hnf : d.getElementById i = none) (hnc : i ∉ keysOf h.cache) :
    (∀ pr ∈ (ElementsHelper.destructure d h ids).1, pr.1 = i → pr.2 = none) ∧
    i ∉ keysOf (ElementsHelper.destructure d h ids).2.cache := by
  have hfold := destructureFold_unfound d i hnf ids ([], h) hnc
    (by intro pr hpr; simp at hpr)
  unfold ElementsHelper.destructure
  dsimp only
  split
  · exact hfold
  · exact hfold

theorem recordLookup_none (pairs : List (String × Option Elem)) (i : String)
    (hall : ∀ pr ∈ pairs, pr.1 = i → pr.2 = none) :
    recordLookup pairs i = none := by
  unfold recordLookup
  cases hf : pairs.find? (fun p => p.1 == i) with
  | none => rfl
  | some pr =>
      have hm := List.mem_of_find?_eq_some hf
      have hk : pr.1 = i := by simpa using List.find?_some hf
      simp [hall pr hm hk]

/-- One unfolding step of the waitFor polling loop. -/
theorem waitForAux_succ (doms : Nat → Dom) (ids : List String) (n tick : Nat)
    (h : ElementsHelper) :
    ElementsHelper.waitForAux doms ids (n + 1) tick h =
      (if ids.all (fun i =>
          (recordLookup (ElementsHelper.destructure (doms tick) h ids).1 i).isSome) then
        ((.ok (ElementsHelper.destructure (doms tick) h ids).1 :
            Except String (List (String × Option Elem))),
          (ElementsHelper.destructure (doms tick) h ids).2)
      else ElementsHelper.waitForAux doms ids n (tick + 1)
        (ElementsHelper.destructure (doms tick) h ids).2) := rfl

theorem waitForAux_timeout (doms : Nat → Dom) (ids : List String) (i : String)
    (hi : i ∈ ids) (hnone : ∀ t, (doms t).getElementById i = none) :
    ∀ (fuel tick : Nat) (h : ElementsHelper), i ∉ keysOf h.cache →
      (ElementsHelper.waitForAux doms ids fuel tick h).1 =
        .error (waitForTimeoutMsg ids) := by
  intro fuel
  induction fuel with
  | zero =>
      intro tick h _
      rfl
  | succ n ih =>
      intro tick h hnc
      obtain ⟨hall, hkey⟩ := destructure_unfound (doms tick) h ids i (hnone tick) hnc
      have hrl := recordLookup_none _ i hall
      have hcheck : ids.all (fun i' =>
          (recordLookup (ElementsHelper.destructure (doms tick) h ids).1 i').isSome)
          = false := by
        cases hx : ids.all (fun i' =>
            (recordLookup (ElementsHelper.destructure (doms tick) h ids).1 i').isSome)
        · rfl
        · exfalso
          have := List.all_eq_true.mp hx i hi
          rw [hrl] at this
          simp at this
      rw [waitForAux_succ]
      rw [if_neg (by rw [hcheck]; exact Bool.false_ne_true)]
      exact ih (tick + 1) _ hkey

theorem destructureFold_mono (d : Dom) :
    ∀ (ids : List String) (acc : List (String × Option Elem) × ElementsHelper)
      (pr : String × Option Elem),
      pr ∈ acc.1 → pr ∈ (ids.foldl (destructureStep d) acc).1 := by
  intro ids
  induction ids with
  | nil => intro acc pr h; exact h
  | cons j rest ih =>
      intro acc pr h
      rw [List.foldl_cons]
      apply ih
      simp only [destructureStep]
      exact List.mem_append.mpr (Or.inl h)

theorem destructureFold_mem (d : Dom) :
    ∀ (ids : List String) (acc : List (String × Option Elem) × ElementsHelper)
      (i : String), i ∈ ids →
      ∃ pr ∈ (ids.foldl (destructureStep d) acc).1, pr.1 = i := by
  intro ids
  induction ids with
  | nil =>
      intro acc i hi
      simp at hi
  | cons j rest ih =>
      intro acc i hi
      rw [List.foldl_cons]
      rcases List.mem_cons.mp hi with hij | hir
      · subst hij
        refine ⟨(i, (ElementsHelper.getElement d acc.2 (.str i)).1), ?_, rfl⟩
        apply destructureFold_mono
        simp [destructureStep]
      · exact ih _ i hir

theorem destructureFold_found_vals (d : Dom) (i : String)
    (hf : (d.getElementById i).isSome = true) :
    ∀ (ids : List String) (acc : List (String × Option Elem) × ElementsHelper),
      (∀ pr ∈ acc.1, pr.1 = i → pr.2.isSome = true) →
      ∀ pr ∈ (ids.foldl (destructureStep d) acc).1, pr.1 = i → pr.2.isSome = true := by
  intro ids
  induction ids with
  | nil =>
      intro acc hacc
      exact hacc
  | cons j rest ih =>
      intro acc hacc
      rw [List.foldl_cons]
      apply ih
      intro pr hpr hpr1
      simp only [destructureStep] at hpr
      rcases List.mem_append.mp hpr with hp | hp
      · exact hacc pr hp hpr1
      · have heq : pr = (j, (ElementsHelper.getElement d acc.2 (.str j)).1) := by
          simpa using hp
        have hji : j = i := by rw [heq] at hpr1; simpa using hpr1
        rw [heq]
        show (ElementsHelper.getElement d acc.2 (.str j)).1.isSome = true
        rw [hji]
        exact getElement_isSome_of_found d acc.2 i hf

theorem recordLookup_isSome (pairs : List (String × Option Elem)) (i : String)
    (hex : ∃ pr ∈ pairs, pr.1 = i)
    (hval : ∀ pr ∈ pairs, pr.1 = i → pr.2.isSome = true) :
    (recordLookup pairs i).isSome = true := by
  unfold recordLookup
  cases hf : pairs.find? (fun p => p.1 == i) with
  | none =>
      exfalso
      obtain ⟨pr, hm, hk⟩ := hex
      have := List.find?_eq_none.mp hf pr hm
      simp [hk] at this
  | some pr =>
      have hm := List.mem_of_find?_eq_some hf
      have hk : pr.1 = i := by simpa using List.find?_some hf
      simpa using hval pr hm hk

theorem destructure_allFound (d : Dom) (h : ElementsHelper) (ids : List String)
    (hall : ∀ j ∈ ids, (d.getElementById j).isSome = true) :
    ids.all (fun i =>
      (recordLookup (ElementsHelper.destructure d h ids).1 i).isSome) = true := by
  apply List.all_eq_true.mpr
  intro i hi
  have hpairs : (ElementsHelper.destructure d h ids).1 =
      (ids.foldl (destructureStep d) ([], h)).1 := by
    unfold ElementsHelper.destructure
    dsimp only
    split <;> rfl
  rw [hpairs]
  apply recordLookup_isSome
  · exact destructureFold_mem d ids ([], h) i hi
  · exact destructureFold_found_vals d i (hall i hi) ids ([], h)
      (by intro pr hpr; simp at hpr)

/-- C8 counterexample: id a resolves at every poll while id b never does;
waitFor times out and its rejection message lists both a and b - it does not
carry the list of discriminators that never resolved (which is just b). -/
theorem claim_C8_waitFor_counterexample :
    (ElementsHelper.waitFor (fun _ => sampleDomBad) (ElementsHelper.init (sampleOpts 1000))
        ["a", "b"]).1 = .error (waitForTimeoutMsg ["a", "b"]) ∧
    waitForTimeoutMsg ["a", "b"] = "Timeout waiting for elements: a, b" ∧
    (sampleDomBad.getElementById "a").isSome = true ∧
    "Timeout waiting for elements: a, b" ≠ "Timeout waiting for elements: b" := by
  refine ⟨?_, by decide, by decide, by decide⟩
  exact waitForAux_timeout (fun _ => sampleDomBad) ["a", "b"] "b" (by decide)
    (fun _ => rfl) (waitForMaxWait / waitForCheckInterval) 0
    (ElementsHelper.init (sampleOpts 1000)) (by decide)

/-- C8 (amended): the elements-helper waitFor polls at the fixed 100ms
interval against a hard-coded 5000ms maximum wait (the function takes no
timeout argument); when every requested discriminator resolves at a poll the
call fulfills with the destructured record and never rejects; when some
discriminator never resolves the call rejects with an error listing all
requested discriminators, not only the unresolved ones; the selector-kind
waitForSelector does take a caller-supplied timeout and its rejection names
the selector it waited for. -/
theorem claim_C8_waitFor_timeout_amended
    (doms : Nat → Dom) (h h2 : ElementsHelper) (hsel : SelectorHelper)
    (ids ids2 : List String) (i2 : String) (s : String)
    (hall : ∀ j ∈ ids, ((doms 0).getElementById j).isSome = true)
    (hi2 : i2 ∈ ids2) (hnone : ∀ t, (doms t).getElementById i2 = none)
    (hnc : i2 ∉ keysOf h2.cache) :
    waitForMaxWait = 5000 ∧ waitForCheckInterval = 100 ∧
    (ElementsHelper.waitFor doms h ids).1 =
      .ok (ElementsHelper.destructure (doms 0) h ids).1 ∧
    (ElementsHelper.waitFor doms h2 ids2).1 = .error (waitForTimeoutMsg ids2) ∧
    waitForTimeoutMsg ids2 =
      "Timeout waiting for elements: " ++ String.intercalate ", " ids2 ∧
    SelectorHelper.waitForSelector doms hsel s 0 =
      (.error ("Timeout waiting for selector: " ++ s), hsel) := by
  refine ⟨rfl, rfl, ?_, ?_, rfl, rfl⟩
  · show (ElementsHelper.waitForAux doms ids (49 + 1) 0 h).1 = _
    rw [waitForAux_succ]
    rw [if_pos (destructure_allFound (doms 0) h ids hall)]
  · exact waitForAux_timeout doms ids2 i2 hi2 hnone
      (waitForMaxWait / waitForCheckInterval) 0 h2 hnc

/-- Witness for the amended C8. -/
theorem claim_C8_waitFor_timeout_amended_witness :
    waitForMaxWait = 5000 ∧ waitForCheckInterval = 100 ∧
    (ElementsHelper.waitFor (fun _ => sampleDomABC)
        (ElementsHelper.init (sampleOpts 1000)) ["a", "b"]).1 =
      .ok (ElementsHelper.destructure sampleDomABC
        (ElementsHelper.init (sampleOpts 1000)) ["a", "b"]).1 ∧
    (ElementsHelper.waitFor (fun _ => sampleDomABC)
        (ElementsHelper.init (sampleOpts 1000)) ["zz"]).1 =
      .error (waitForTimeoutMsg ["zz"]) ∧
    waitForTimeoutMsg ["zz"] =
      "Timeout waiting for elements: " ++ String.intercalate ", " ["zz"] ∧
    SelectorHelper.waitForSelector (fun _ => sampleDomABC)
        (SelectorHelper.init (sampleOpts 1000)) ".x" 0 =
      (.error ("Timeout waiting for selector: " ++ ".x"),
        SelectorHelper.init (sampleOpts 1000)) :=
  claim_C8_waitFor_timeout_amended (fun _ => sampleDomABC)
    (ElementsHelper.init (sampleOpts 1000)) (ElementsHelper.init (sampleOpts 1000))
    (SelectorHelper.init (sampleOpts 1000)) ["a", "b"] ["zz"] "zz" ".x"
    (by decide) (by decide) (fun _ => rfl) (by decide)

end DomHelpers
